import Mathlib

/-!
Verification development for the pacman-agent decision engine
(`src/shared.py`, `src/attackAgent.py`, `src/defendAgent.py`).

The Python code is shallowly embedded below.  Grid positions are pairs of
integers, one move per turn is one of the five framework actions, and the
external Board Oracle (maze walls, maze-distance oracle, agent positions,
food and capsule snapshots) is a record of functions supplied per turn.
Fallible Python operations (unpacking an empty search result, indexing an
empty list, reading a name that a branch left unbound) are modelled with
`Option`, with `none` for the raised exception.  `random.choice` is
modelled by an extra index argument `r`; Python's `sorted` with a key is
modelled by a stable insertion sort on the key.  The A* frontier
(`util.PriorityQueue`, outside this repository) is modelled from the
spec's stated contract, see `frontierUpdate` and `popMin` below.
-/

namespace PacmanAgent

/-- Grid coordinates, as in the Python `(x, y)` tuples. -/
abbrev Pos : Type := Int × Int

/-- The five framework moves. -/
inductive Action : Type where
  | North
  | South
  | East
  | West
  | Stop
deriving DecidableEq, Repr

/-- Coordinate change of one move, as written out in `aStarSearch` and
`avoid_enemy_collision` (North is `(x, y + 1)`, etc.; Stop stays). -/
def stepPos : Pos → Action → Pos
  | (x, y), Action.North => (x, y + 1)
  | (x, y), Action.South => (x, y - 1)
  | (x, y), Action.East => (x + 1, y)
  | (x, y), Action.West => (x - 1, y)
  | (x, y), Action.Stop => (x, y)

/-- `get_legal_actions_own` (src/shared.py:16-28): the framework's possible
actions from a hypothetical position are the moves whose target cell is not
a wall (Stop targets the current cell), in the framework's fixed order. -/
def get_legal_actions_own (walls : Pos → Bool) (pos : Pos) : List Action :=
  [Action.North, Action.South, Action.East, Action.West, Action.Stop].filter
    (fun a => !walls (stepPos pos a))

/-- The successor states built inside `aStarSearch` (src/shared.py:50-61):
one per legal action, with Stop disregarded. -/
def successors (walls : Pos → Bool) (pos : Pos) : List (Pos × Action) :=
  (get_legal_actions_own walls pos).filterMap fun a =>
    match a with
    | Action.Stop => none
    | a => some (stepPos pos a, a)

/-- One frontier element: the pushed item `(position, action trace, cost)`
together with its queue key.  `aStarSearch` pushes the new priority also as
the item's cost component (src/shared.py:68-70). -/
structure Entry : Type where
  pos : Pos
  actions : List Action
  cost : Nat
  priority : Nat
deriving DecidableEq, Repr

/-- Modelled from the spec: `util.PriorityQueue.pop` of the frontier
(the queue itself is outside this repository).  Removes the entry with the
minimal key; among equal keys the earliest inserted wins. -/
def popMin : List Entry → Option (Entry × List Entry)
  | [] => none
  | e :: rest =>
    match popMin rest with
    | none => some (e, [])
    | some (m, rest') =>
      if e.priority ≤ m.priority then some (e, rest) else some (m, e :: rest')

/-- Modelled from the spec: `util.PriorityQueue.update` of the frontier
(outside this repository).  Inserting a position already present with a
strictly lower key replaces it, a higher or equal key is a no-op, and a
position can appear at most once; an absent position is pushed. -/
def frontierUpdate (f : List Entry) (e : Entry) : List Entry :=
  if f.any (fun e2 => e2.pos == e.pos) then
    f.map (fun e2 => if e2.pos = e.pos ∧ e.priority < e2.priority then e else e2)
  else f ++ [e]

/-- Result of `aStarSearch`: the Python function returns the pair
`(pos, actions)` on success and the bare empty list when the frontier
empties; `outOfFuel` is the artifact of bounding the while loop. -/
inductive SearchResult : Type where
  | found (pos : Pos) (actions : List Action)
  | noPath
  | outOfFuel
deriving DecidableEq, Repr

/-- The `while not frontier.isEmpty()` loop of `aStarSearch`
(src/shared.py:39-70), with an explicit fuel bound.  A popped position is
skipped when already visited; the goal test happens on pop; successors are
pushed with key `cost_until_now + 1 + heuristic(successor)`, and the item
stores that key as its cost component, exactly as the source does. -/
def aStarLoop (h : Pos → Nat) (walls : Pos → Bool) (goal : Pos) :
    Nat → List Entry → List Pos → SearchResult
  | 0, _, _ => SearchResult.outOfFuel
  | fuel + 1, f, visited =>
    match popMin f with
    | none => SearchResult.noPath
    | some (e, f') =>
      if e.pos ∈ visited then
        aStarLoop h walls goal fuel f' visited
      else if e.pos = goal then
        SearchResult.found e.pos e.actions
      else
        let f'' := (successors walls e.pos).foldl
          (fun acc sa =>
            frontierUpdate acc
              ⟨sa.1, e.actions ++ [sa.2], e.cost + 1 + h sa.1, e.cost + 1 + h sa.1⟩) f'
        aStarLoop h walls goal fuel f'' (e.pos :: visited)

/-- `aStarSearch` (src/shared.py:31-73): frontier seeded with
`(initial_position, [], 0)` at key 0, empty visited set. -/
def aStarSearch (h : Pos → Nat) (walls : Pos → Bool) (start goal : Pos)
    (fuel : Nat) : SearchResult :=
  aStarLoop h walls goal fuel [⟨start, [], 0, 0⟩] []

/-- Executing a move sequence one step at a time: each step must be a
cardinal move into a non-wall cell (exactly the legality that `aStarSearch`
successors use); the final position is returned. -/
def followPath (walls : Pos → Bool) : Pos → List Action → Option Pos
  | p, [] => some p
  | p, a :: rest =>
    if a ≠ Action.Stop ∧ walls (stepPos p a) = false then
      followPath walls (stepPos p a) rest
    else
      none

/-- True shortest-path maze distance `d` between two cells: some legal move
sequence of length `d` connects them and no shorter one does. -/
def isMinDist (walls : Pos → Bool) (start goal : Pos) (d : Nat) : Prop :=
  (∃ acts, followPath walls start acts = some goal ∧ acts.length = d) ∧
    ∀ acts, followPath walls start acts = some goal → d ≤ acts.length

/-- The Board Oracle: the per-turn snapshot of every external query the
policies make (maze geometry, distance oracle, agent and enemy positions,
food and capsule observations). -/
structure Oracle : Type where
  walls : Pos → Bool
  width : Nat
  height : Nat
  dist : Pos → Pos → Nat
  red : Bool
  myPos : Pos
  myInitial : Pos
  enemyInitial : Pos
  enemies : List (Option Pos)
  foodEnemy : Nat → Nat → Bool
  foodOurs : Nat → Nat → Bool
  capsEnemy : List Pos
  capsOurs : List Pos

/-- `int(width / 2)`, the midline column used by `in_our_field`. -/
def half_width (o : Oracle) : Int :=
  Int.ofNat (o.width / 2)

/-- `in_our_field` (src/shared.py:76-84). -/
def in_our_field (o : Oracle) (position : Pos) : Bool :=
  if o.red then decide (position.1 < half_width o)
  else decide (position.1 ≥ half_width o)

/-- Auxiliary recursion for `pyFilterLoop`: `n` bounds the number of loop
iterations still possible (the loop index grows every iteration while the
list never grows, so `l.length - i` iterations always suffice). -/
def pyFilterAux {α : Type} [DecidableEq α] (cond : α → Bool) :
    Nat → Nat → List α → List α
  | 0, _, l => l
  | n + 1, i, l =>
    if h : i < l.length then
      if cond (l.get ⟨i, h⟩) then
        pyFilterAux cond n (i + 1) (l.erase (l.get ⟨i, h⟩))
      else
        pyFilterAux cond n (i + 1) l
    else l

/-- Python's `for x in l: if cond(x): l.remove(x)` over a mutating list:
the loop index advances each iteration even when the element under it was
just removed, so the element sliding into the freed slot is skipped.
This models the enemy loop of `avoid_enemy_collision` (src/shared.py:149-151). -/
def pyFilterLoop {α : Type} [DecidableEq α] (cond : α → Bool) (i : Nat)
    (l : List α) : List α :=
  pyFilterAux cond l.length i l

/-- `avoid_enemy_collision` (src/shared.py:117-167).  `none` models the
exception raised when `next_action` is Stop and the name `a_star_pos` is
read unbound; `r` chooses the `random.choice` fallback element. -/
def avoid_enemy_collision (o : Oracle) (current_pos : Pos)
    (next_action : Action) (r : Nat) : Option Action :=
  let a_star_pos? : Option Pos :=
    match next_action with
    | Action.North => some (current_pos.1, current_pos.2 + 1)
    | Action.South => some (current_pos.1, current_pos.2 - 1)
    | Action.East => some (current_pos.1 + 1, current_pos.2)
    | Action.West => some (current_pos.1 - 1, current_pos.2)
    | Action.Stop => none
  let pairs0 : List (Action × Pos) :=
    (get_legal_actions_own o.walls o.myPos).filterMap fun a =>
      match a with
      | Action.Stop => none
      | a => some (a, stepPos current_pos a)
  let pairs := o.enemies.foldl
    (fun acc e? =>
      match e? with
      | some enemy_position =>
        if in_our_field o enemy_position = false then
          pyFilterLoop (fun ap => decide (o.dist ap.2 enemy_position ≤ 1)) 0 acc
        else acc
      | none => acc) pairs0
  if 0 < pairs.length then
    match a_star_pos? with
    | none => none
    | some ap =>
      match pairs.find? (fun x => x.2 == ap) with
      | some (a, _) => some a
      | none => some ((pairs.getD (r % pairs.length) (Action.Stop, current_pos)).1)
  else
    some next_action

/-- The double loop of `get_food_positions_enemy` / `get_food_positions_ours`
(src/shared.py:175-181, 193-199): row indices `0..height-2` outside, column
indices `0..width-2` inside, appending `(i, j)` when the grid holds food. -/
def food_scan (width height : Nat) (isFood : Nat → Nat → Bool) : List Pos :=
  (List.range (height - 1)).flatMap fun j =>
    (List.range (width - 1)).filterMap fun i =>
      if isFood i j then some ((Int.ofNat i, Int.ofNat j) : Pos) else none

/-- `get_food_positions_enemy` (src/shared.py:170-185): the scanned food
cells plus the enemy-side capsules. -/
def get_food_positions_enemy (o : Oracle) : List Pos :=
  food_scan o.width o.height o.foodEnemy ++ o.capsEnemy

/-- `get_food_positions_ours` (src/shared.py:188-203). -/
def get_food_positions_ours (o : Oracle) : List Pos :=
  food_scan o.width o.height o.foodOurs ++ o.capsOurs

/-- `get_closest_point_in_our_field` (src/shared.py:87-102): scan the
boundary column's rows `1..height-1`, keeping the strictly closest open
cell; `none` when every cell in the column is a wall. -/
def get_closest_point_in_our_field (o : Oracle) : Option Pos :=
  let x : Int := if o.red then half_width o - 1 else half_width o
  ((List.range' 1 (o.height - 1)).foldl
    (fun (acc : Nat × Option Pos) y =>
      if o.walls (x, (y : Int)) = false then
        let d := o.dist o.myPos (x, (y : Int))
        if d < acc.1 then (d, some (x, (y : Int))) else acc
      else acc)
    (999999, none)).2

/-- `get_column_slice` (src/shared.py:105-114): the open cells of a column,
rows `1..height-1` in increasing order. -/
def get_column_slice (o : Oracle) (col : Int) (offset : Option Int) : List Pos :=
  let c := match offset with
    | some off => col + off
    | none => col
  (List.range' 1 (o.height - 1)).filterMap fun y =>
    if o.walls (c, (y : Int)) = false then some ((c, (y : Int)) : Pos) else none

/-- Stable insertion step for `sortByKey`: a later element passes every
strictly smaller key and stops before an equal or larger one. -/
def insertByKey {α : Type} (key : α → Int) (a : α) : List α → List α
  | [] => [a]
  | b :: bs => if key b < key a then b :: insertByKey key a bs else a :: b :: bs

/-- Python's stable `sorted(l, key=key)`. -/
def sortByKey {α : Type} (key : α → Int) : List α → List α
  | [] => []
  | a :: as => insertByKey key a (sortByKey key as)

/-- `a_star_to_food_position` (src/shared.py:206-233): sort the candidate
food positions by oracle distance from the (possibly overridden) origin,
pick the closest — or, when randomizing, one of the three closest via `r` —
then run `aStarSearch` from the real current position.  `none` models the
exceptions: indexing an empty candidate list, or unpacking the planner's
bare empty-list return. -/
def a_star_to_food_position (o : Oracle) (h : Pos → Nat) (fuel : Nat)
    (foods : List Pos) (randomize : Bool) (r : Nat)
    (initOverride : Option Pos) : Option (Pos × List Action) :=
  let initial_position := match initOverride with
    | none => o.myPos
    | some p => p
  let distances_array :=
    sortByKey (fun x => x.1) (foods.map fun fp => ((o.dist initial_position fp : Int), fp))
  let chosen? := if randomize then
      (let t := distances_array.take 3; t.get? (r % t.length))
    else distances_array.head?
  match chosen? with
  | none => none
  | some (_, min_food_position) =>
    match aStarSearch h o.walls o.myPos min_food_position fuel with
    | SearchResult.found destination next_actions => some (destination, next_actions)
    | _ => none

namespace AttackAgent

/-- Attacker configuration constants (src/attackAgent.py:20-25). -/
def DISTANCE_FROM_ENEMY_TO_FLEE : Nat := 6

def COST_HEURISTIC_ENEMY_CLOSE : Nat := 5

def FOOD_EATEN_TO_RETURN : Int := 5

def CAPSULE_EFFECT_DURATION : Int := 35

def TURNS_FLEEING_TOO_MUCH : Int := 4

def TURNS_HAS_TO_FLEE : Int := 6

/-- The attacker's A* heuristic (src/attackAgent.py:85-102): the flee
penalty for cells near a visible enemy outside home territory, else 1. -/
def heuristic (o : Oracle) (pos : Pos) : Nat :=
  if o.enemies.any (fun e? =>
      match e? with
      | some enemy_position =>
        (!in_our_field o enemy_position) &&
          decide (o.dist pos enemy_position < DISTANCE_FROM_ENEMY_TO_FLEE)
      | none => false) then
    COST_HEURISTIC_ENEMY_CLOSE
  else 1

/-- The attacker's per-match mutable counters (src/attackAgent.py:58-76). -/
structure State : Type where
  food_in_last_turn : Int
  food_eaten : Int
  capsules_in_last_turn : Int
  turns_with_capsule_effect : Int
  first_actions : List Action
  already_randomized : Bool
  turn_counter : Int
  has_fled : List Int
  fleeing_point : Option Pos
  turns_has_to_flee : Int
  last_fled_turn_checked : Int
deriving DecidableEq, Repr

/-- Python's negative list index: `l[-(k+1)]` (0 when out of range, which
the guarded call sites never hit). -/
def nthFromEnd (l : List Int) (k : Nat) : Int :=
  l.reverse.getD k 0

/-- `AttackAgent.update_counters` (src/attackAgent.py:104-133), statement
by statement. -/
def update_counters (o : Oracle) (s : State) : State :=
  let s1 := { s with turn_counter := s.turn_counter + 1 }
  let s2 := if s1.turns_has_to_flee > 0 then
      { s1 with turns_has_to_flee := s1.turns_has_to_flee - 1 }
    else s1
  let s3 := if s2.turns_with_capsule_effect > 0 then
      { s2 with turns_with_capsule_effect := s2.turns_with_capsule_effect - 1 }
    else s2
  let caps : Int := Int.ofNat o.capsEnemy.length
  let s4 := if s3.capsules_in_last_turn > caps then
      { s3 with turns_with_capsule_effect := CAPSULE_EFFECT_DURATION,
                capsules_in_last_turn := caps }
    else s3
  let s5 := if in_our_field o o.myPos then { s4 with food_eaten := 0 }
    else { s4 with first_actions := [] }
  let s6 := if s5.already_randomized ∧ o.myPos = o.myInitial then
      { s5 with first_actions := [], turns_has_to_flee := 0 }
    else s5
  let food : Int := Int.ofNat (get_food_positions_enemy o).length
  if food < s6.food_in_last_turn then
    { s6 with food_in_last_turn := food, food_eaten := s6.food_eaten + 1 }
  else s6

/-- `has_been_fleeing_too_much` (src/attackAgent.py:135-143).  Returns the
flag and the state (the innermost branch records the last checked flee
turn before evaluating the two gap conditions). -/
def has_been_fleeing_too_much (o : Oracle) (s : State) : Bool × State :=
  if in_our_field o o.myPos then
    if 4 < s.has_fled.length then
      if nthFromEnd s.has_fled 0 ≠ s.last_fled_turn_checked then
        ((decide (nthFromEnd s.has_fled 0 - nthFromEnd s.has_fled 1 ≤ TURNS_FLEEING_TOO_MUCH) &&
            decide (nthFromEnd s.has_fled 1 - nthFromEnd s.has_fled 2 ≤ TURNS_FLEEING_TOO_MUCH)),
          { s with last_fled_turn_checked := nthFromEnd s.has_fled 0 })
      else (false, s)
    else (false, s)
  else (false, s)

/-- `decide_action_return` (src/attackAgent.py:145-189).  `none` models the
raised exceptions: unpacking the planner's bare empty-list return, a
`None` boundary point, or a distance-1 food that matches no adjacent cell
and leaves `next_action` unbound. -/
def decide_action_return (o : Oracle) (fuel r : Nat) : Option Action :=
  match get_closest_point_in_our_field o with
  | none => none
  | some closest_point_in_our_field =>
    match aStarSearch (heuristic o) o.walls o.myPos closest_point_in_our_field fuel with
    | SearchResult.found _ next_actions =>
      let has_to_flee := o.enemies.any fun e? =>
        match e? with
        | some enemy_position =>
          decide (o.dist o.myPos enemy_position < DISTANCE_FROM_ENEMY_TO_FLEE)
        | none => false
      let greedy : Option (Option Action) :=
        if has_to_flee = false then
          match (get_food_positions_enemy o).find? (fun fp => o.dist o.myPos fp == 1) with
          | some food_pos =>
            some (if food_pos = (o.myPos.1, o.myPos.2 + 1) then some Action.North
              else if food_pos = (o.myPos.1, o.myPos.2 - 1) then some Action.South
              else if food_pos = (o.myPos.1 + 1, o.myPos.2) then some Action.East
              else if food_pos = (o.myPos.1 - 1, o.myPos.2) then some Action.West
              else none)
          | none => none
        else none
      match greedy with
      | some res => res
      | none =>
        match next_actions with
        | [] => some Action.Stop
        | a :: _ => avoid_enemy_collision o o.myPos a r
    | _ => none

/-- `get_fleeing_point` (src/attackAgent.py:243-263): the far end of the
column holding the own-side food closest to the enemy spawn. -/
def get_fleeing_point (o : Oracle) (fuel r : Nat) : Option Pos :=
  match a_star_to_food_position o (heuristic o) fuel (get_food_positions_ours o)
      false r (some o.enemyInitial) with
  | none => none
  | some (closest_food_from_enemy, _) =>
    let valid := sortByKey (fun p => p.2)
      (get_column_slice o closest_food_from_enemy.1 none)
    match valid.head?, valid.getLast? with
    | some patrol_point_1, some patrol_point_2 =>
      some (if o.dist o.myPos patrol_point_1 > o.dist o.myPos patrol_point_2 then
          patrol_point_1
        else patrol_point_2)
    | _, _ => none

/-- `decide_action_attack` (src/attackAgent.py:191-241): the scripted
opening plan-once-and-drain, the must-keep-fleeing window, the
fleeing-too-much retreat, and the default closest-food attack. -/
def decide_action_attack (o : Oracle) (fuel r : Nat) (s : State) :
    Option (State × Action) :=
  let opening? : Option State :=
    if s.first_actions = [] ∧ s.already_randomized = false then
      match a_star_to_food_position o (heuristic o) fuel (get_food_positions_enemy o)
          true r none with
      | some (_, acts) =>
        some { s with already_randomized := true, first_actions := acts }
      | none => none
    else some s
  match opening? with
  | none => none
  | some s1 =>
    match s1.first_actions with
    | a :: rest =>
      (avoid_enemy_collision o o.myPos a r).map fun act =>
        ({ s1 with first_actions := rest }, act)
    | [] =>
      if s1.turns_has_to_flee > 0 then
        let repick? : Option State :=
          if s1.fleeing_point = some o.myPos then
            match get_fleeing_point o fuel r with
            | some fp => some { s1 with fleeing_point := some fp }
            | none => none
          else some s1
        match repick? with
        | none => none
        | some s2 =>
          match s2.fleeing_point with
          | none => none
          | some fp =>
            match aStarSearch (heuristic o) o.walls o.myPos fp fuel with
            | SearchResult.found _ (a :: _) => some (s2, a)
            | _ => none
      else
        match has_been_fleeing_too_much o s1 with
        | (fled, s2) =>
          if fled then
            if get_food_positions_ours o = [] then some (s2, Action.Stop)
            else
              match get_fleeing_point o fuel r with
              | none => none
              | some fp =>
                let s3 := { s2 with fleeing_point := some fp,
                                    turns_has_to_flee := TURNS_HAS_TO_FLEE }
                match aStarSearch (heuristic o) o.walls o.myPos fp fuel with
                | SearchResult.found _ (a :: _) => some (s3, a)
                | _ => none
          else
            match a_star_to_food_position o (heuristic o) fuel
                (get_food_positions_enemy o) false r none with
            | none => none
            | some (_, next_actions) =>
              match next_actions with
              | a :: _ =>
                (avoid_enemy_collision o o.myPos a r).map fun act => (s2, act)
              | [] => none

/-- `decide_action_in_enemy_field` (src/attackAgent.py:265-297): with no
capsule effect, flee from the first visible enemy outside home territory
within the flee distance, recording the flee turn; otherwise fall through
to `decide_action_attack`. -/
def decide_action_in_enemy_field (o : Oracle) (fuel r : Nat) (s : State) :
    Option (State × Action) :=
  let threat? : Option Pos :=
    if s.turns_with_capsule_effect = 0 then
      (o.enemies.filterMap id).find? fun enemy_position =>
        (!in_our_field o enemy_position) &&
          decide (o.dist o.myPos enemy_position < DISTANCE_FROM_ENEMY_TO_FLEE)
    else none
  match threat? with
  | some _ =>
    match get_closest_point_in_our_field o with
    | none => none
    | some flee_point =>
      let s2 := { s with has_fled := s.has_fled ++ [s.turn_counter] }
      match aStarSearch (heuristic o) o.walls o.myPos flee_point fuel with
      | SearchResult.found _ (a :: _) =>
        (avoid_enemy_collision o o.myPos a r).map fun act => (s2, act)
      | _ => none
  | none => decide_action_attack o fuel r s

/-- `AttackAgent.choose_action` (src/attackAgent.py:299-311). -/
def choose_action (o : Oracle) (fuel r : Nat) (s : State) :
    Option (State × Action) :=
  let s1 := update_counters o s
  if s1.food_eaten > FOOD_EATEN_TO_RETURN ∨ (get_food_positions_enemy o).length = 0 then
    (decide_action_return o fuel r).map fun a => (s1, a)
  else if in_our_field o o.myPos then
    decide_action_attack o fuel r s1
  else
    decide_action_in_enemy_field o fuel r s1

end AttackAgent

namespace DefendAgent

/-- Defender configuration constants (src/defendAgent.py:19-22). -/
def COST_HEURISTIC_CROSSING_ENEMY_FIELD : Nat := 5

def CAPSULE_EFFECT_DURATION : Int := 40

/-- The defender's A* heuristic (src/defendAgent.py:48-64): a fixed
penalty for any cell outside home territory, else 1. -/
def heuristic (o : Oracle) (pos : Pos) : Nat :=
  if in_our_field o pos = false then COST_HEURISTIC_CROSSING_ENEMY_FIELD else 1

/-- The defender's per-match mutable counters (src/defendAgent.py:31-46).
Python keeps the last-seen own food as a set; the model keeps the snapshot
list and takes set difference by membership. -/
structure State : Type where
  initial_actions : List Action
  initial_goal : Option Pos
  last_patrolled_point : Option Pos
  patrol_point_1 : Option Pos
  patrol_point_2 : Option Pos
  food_positions_in_last_turn : List Pos
  eaten_food_position : Option Pos
  capsules_in_last_turn : Int
  turns_with_capsule_effect : Int
deriving DecidableEq, Repr

/-- `do_vertical_patrol` (src/defendAgent.py:72-102).  `none` models the
raised exceptions: a goal that no branch assigned, a single unset patrol
point, unpacking the planner's bare empty-list return, or indexing an
empty action trace. -/
def do_vertical_patrol (o : Oracle) (fuel : Nat) (s : State) :
    Option (State × Action) :=
  match s.patrol_point_1, s.patrol_point_2 with
  | none, none => some (s, Action.Stop)
  | some patrol_point_1, some patrol_point_2 =>
    let d1 := o.dist o.myPos patrol_point_1
    let d2 := o.dist o.myPos patrol_point_2
    let goal0 : Option Pos :=
      if s.last_patrolled_point = none then
        some (if d1 < d2 then patrol_point_1 else patrol_point_2)
      else none
    let lpAndGoal : Option Pos × Option Pos :=
      if d1 = 0 then (some patrol_point_1, some patrol_point_2)
      else if d2 = 0 then (some patrol_point_2, some patrol_point_1)
      else if s.last_patrolled_point = some patrol_point_1 then
        (s.last_patrolled_point, some patrol_point_2)
      else if s.last_patrolled_point = some patrol_point_2 then
        (s.last_patrolled_point, some patrol_point_1)
      else (s.last_patrolled_point, goal0)
    match lpAndGoal.2 with
    | none => none
    | some goal =>
      let s' := { s with last_patrolled_point := lpAndGoal.1 }
      match aStarSearch (heuristic o) o.walls o.myPos goal fuel with
      | SearchResult.found _ (a :: _) => some (s', a)
      | _ => none
  | _, _ => none

/-- `calculate_patrol_points` (src/defendAgent.py:104-122): on a map with
own food, pick the own food closest to the enemy spawn, cache the route to
it as the scripted opening, and derive the two patrol endpoints from that
food's column. -/
def calculate_patrol_points (o : Oracle) (fuel r : Nat) (s : State) :
    Option State :=
  if get_food_positions_ours o ≠ [] then
    match a_star_to_food_position o (heuristic o) fuel (get_food_positions_ours o)
        false r (some o.enemyInitial) with
    | none => none
    | some (initial_goal, _) =>
      match aStarSearch (heuristic o) o.walls o.myPos initial_goal fuel with
      | SearchResult.found _ actions =>
        let valid := sortByKey (fun p => p.2) (get_column_slice o initial_goal.1 none)
        match valid.head?, valid.getLast? with
        | some patrol_point_1, some patrol_point_2 =>
          some { s with initial_goal := some initial_goal,
                        initial_actions := actions,
                        patrol_point_1 := some patrol_point_1,
                        patrol_point_2 := some patrol_point_2 }
        | _, _ => none
      | _ => none
  else some s

/-- `DefendAgent.update_counters` (src/defendAgent.py:124-144): first-turn
patrol-point setup, food-loss tracking, and the capsule-effect counter. -/
def update_counters (o : Oracle) (fuel r : Nat) (s : State) : Option State :=
  let setup? := if s.initial_goal = none then calculate_patrol_points o fuel r s
    else some s
  match setup? with
  | none => none
  | some s1 =>
    let food_positions_in_this_turn := get_food_positions_ours o
    let foods_eaten := s1.food_positions_in_last_turn.filter
      (fun p => decide (p ∉ food_positions_in_this_turn))
    let s2 := { s1 with food_positions_in_last_turn := food_positions_in_this_turn,
                        eaten_food_position :=
                          match foods_eaten.head? with
                          | some p => some p
                          | none => s1.eaten_food_position }
    let caps : Int := Int.ofNat o.capsOurs.length
    some (if s2.capsules_in_last_turn > caps then
        { s2 with turns_with_capsule_effect := CAPSULE_EFFECT_DURATION,
                  capsules_in_last_turn := caps }
      else if s2.turns_with_capsule_effect > 0 then
        { s2 with turns_with_capsule_effect := s2.turns_with_capsule_effect - 1 }
      else s2)

/-- `decide_action_enemy_close_in_our_field` (src/defendAgent.py:146-168):
pursue the visible enemy directly unless a capsule effect is active for at
least as long as the oracle distance to the enemy, in which case patrol. -/
def decide_action_enemy_close_in_our_field (o : Oracle) (fuel : Nat)
    (enemy_position : Pos) (s : State) : Option (State × Action) :=
  if s.turns_with_capsule_effect = 0 then
    match aStarSearch (heuristic o) o.walls o.myPos enemy_position fuel with
    | SearchResult.found _ (a :: _) => some (s, a)
    | _ => none
  else
    if s.turns_with_capsule_effect < Int.ofNat (o.dist o.myPos enemy_position) then
      match aStarSearch (heuristic o) o.walls o.myPos enemy_position fuel with
      | SearchResult.found _ (a :: _) => some (s, a)
      | _ => none
    else
      do_vertical_patrol o fuel s

/-- `DefendAgent.choose_action` (src/defendAgent.py:170-200): drain the
scripted opening, else react to a visible intruder, else investigate the
latest food loss, else patrol. -/
def choose_action (o : Oracle) (fuel r : Nat) (s : State) :
    Option (State × Action) :=
  match update_counters o fuel r s with
  | none => none
  | some s1 =>
    match s1.initial_actions with
    | a :: rest => some ({ s1 with initial_actions := rest }, a)
    | [] =>
      let intruder? := (o.enemies.filterMap id).find? fun enemy_position =>
        in_our_field o enemy_position
      match intruder? with
      | some enemy_position =>
        decide_action_enemy_close_in_our_field o fuel enemy_position s1
      | none =>
        match s1.eaten_food_position with
        | some eaten =>
          if eaten ≠ o.myPos then
            match aStarSearch (heuristic o) o.walls o.myPos eaten fuel with
            | SearchResult.found _ (a :: _) => some (s1, a)
            | _ => none
          else
            do_vertical_patrol o fuel { s1 with eaten_food_position := none }
        | none => do_vertical_patrol o fuel s1

end DefendAgent


/-! ### Proof-layer definitions -/

/-- Invariant of every frontier entry in the constant-1-heuristic run: the
action trace is a legal path from the start to the entry's position, the
stored cost equals the stored key (the source pushes the key as the cost
component), and the key is twice the trace length (each expansion adds the
step cost 1 plus the constant heuristic 1). -/
def EntryInv (walls : Pos → Bool) (start : Pos) (e : Entry) : Prop :=
  followPath walls start e.actions = some e.pos ∧ e.cost = e.priority ∧
    e.priority = 2 * e.actions.length

/-- The loop invariant of `aStarLoop` under the constant-1 heuristic:
all frontier entries are well formed, frontier positions are distinct (the
queue contract), the goal is never marked visited (the loop returns before
marking it), the start is settled or still covered at trace length 0, and
every edge out of the visited region is covered by a frontier entry whose
trace is at most one longer than any path to the edge's source. -/
structure AStarInv (walls : Pos → Bool) (start goal : Pos)
    (f : List Entry) (visited : List Pos) : Prop where
  good : ∀ e ∈ f, EntryInv walls start e
  nodupPos : (f.map Entry.pos).Nodup
  goalNotVisited : goal ∉ visited
  startCov : start ∈ visited ∨ ∃ e ∈ f, e.pos = start ∧ e.actions.length = 0
  cov : ∀ v ∈ visited, ∀ sa ∈ successors walls v, sa.1 ∈ visited ∨
    ∃ e ∈ f, e.pos = sa.1 ∧ ∀ acts, followPath walls start acts = some v →
      e.actions.length ≤ acts.length + 1

/-- The Chebyshev-style box of all cells a path of length at most `d` from
`start` can reach. -/
def reachBox (start : Pos) (d : Nat) : Finset Pos :=
  Finset.Icc (start.1 - d) (start.1 + d) ×ˢ Finset.Icc (start.2 - d) (start.2 + d)

/-! ### Concrete scenario boards

Small boards used to evaluate the model on explicit inputs.  The distance
oracle on these boards is the Manhattan distance, which coincides with true
maze distance on the open corridors used. -/

/-- Manhattan distance, the true maze distance on an open corridor. -/
def manhattan : Pos → Pos → Nat :=
  fun p q => (p.1 - q.1).natAbs + (p.2 - q.2).natAbs

/-- Board for the collision-filter scenario: red agent at `(2, 2)` with all
four moves open, one visible enemy at `(3, 1)` on the enemy half. -/
def collisionOracle : Oracle :=
  { walls := fun p =>
      !(p == ((2 : Int), (2 : Int)) || p == (2, 3) || p == (2, 1) ||
        p == (3, 2) || p == (1, 2))
    width := 6, height := 6, dist := manhattan
    red := true, myPos := (2, 2), myInitial := (1, 2), enemyInitial := (5, 5)
    enemies := [some (3, 1), none]
    foodEnemy := fun _ _ => false, foodOurs := fun _ _ => false
    capsEnemy := [], capsOurs := [] }

/-- Two adjacent open cells, used to exercise the planner. -/
def pairWalls : Pos → Bool :=
  fun p => !(p == ((0 : Int), (0 : Int)) || p == ((1 : Int), (0 : Int)))

/-- A degenerate board with two open cells that are not connected. -/
def splitOracle : Oracle :=
  { walls := fun p => !(p == ((0 : Int), (0 : Int)) || p == ((5 : Int), (5 : Int)))
    width := 12, height := 12, dist := manhattan
    red := true, myPos := (0, 0), myInitial := (0, 0), enemyInitial := (11, 11)
    enemies := [none, none]
    foodEnemy := fun _ _ => false, foodOurs := fun _ _ => false
    capsEnemy := [], capsOurs := [] }

/-- Defender state mid-match on the split board: both patrol points set,
the second one unreachable from the agent. -/
def splitState : DefendAgent.State :=
  { initial_actions := [], initial_goal := some (5, 5)
    last_patrolled_point := none
    patrol_point_1 := some (0, 0), patrol_point_2 := some (5, 5)
    food_positions_in_last_turn := [], eaten_food_position := none
    capsules_in_last_turn := 0, turns_with_capsule_effect := 0 }

/-- An open corridor: row `y = 1`, columns `0..10`. -/
def corridorWalls : Pos → Bool :=
  fun p => !(p.2 == 1 && 0 ≤ p.1 && p.1 ≤ 10)

/-- Corridor board for the defender capsule-branch scenarios: the whole
corridor lies in the red defender's own half. -/
def patrolOracle : Oracle :=
  { walls := corridorWalls
    width := 22, height := 3, dist := manhattan
    red := true, myPos := (3, 1), myInitial := (0, 1), enemyInitial := (10, 1)
    enemies := [some (8, 1), none]
    foodEnemy := fun _ _ => false, foodOurs := fun _ _ => false
    capsEnemy := [], capsOurs := [] }

/-- Defender state on the corridor with a given capsule-effect counter. -/
def patrolState (c : Int) : DefendAgent.State :=
  { initial_actions := [], initial_goal := some (9, 1)
    last_patrolled_point := none
    patrol_point_1 := some (0, 1), patrol_point_2 := some (1, 1)
    food_positions_in_last_turn := [], eaten_food_position := none
    capsules_in_last_turn := 0, turns_with_capsule_effect := c }

/-- Corridor board restricted to columns `0..5` for the attacker: a red
agent at `(4, 1)` stands on the enemy half (midline column 3). -/
def enemyFieldOracle : Oracle :=
  { walls := fun p => !(p.2 == 1 && 0 ≤ p.1 && p.1 ≤ 5)
    width := 6, height := 3, dist := manhattan
    red := true, myPos := (4, 1), myInitial := (1, 1), enemyInitial := (5, 1)
    enemies := [none, none]
    foodEnemy := fun i j => i == 3 && j == 1, foodOurs := fun _ _ => false
    capsEnemy := [], capsOurs := [] }

/-- Attacker state mid-match with a two-move opening queue left. -/
def enemyFieldState : AttackAgent.State :=
  { food_in_last_turn := 1, food_eaten := 0, capsules_in_last_turn := 0
    turns_with_capsule_effect := 0
    first_actions := [Action.East, Action.East]
    already_randomized := true, turn_counter := 7, has_fled := []
    fleeing_point := none, turns_has_to_flee := 0, last_fled_turn_checked := 0 }

/-- Corridor board for the flee-history scenarios: the red attacker at
`(2, 1)` is in its own half (midline column 11) and own food remains. -/
def fleeOracle : Oracle :=
  { walls := corridorWalls
    width := 22, height := 3, dist := manhattan
    red := true, myPos := (2, 1), myInitial := (0, 1), enemyInitial := (10, 1)
    enemies := [none, none]
    foodEnemy := fun _ _ => false, foodOurs := fun i j => i == 5 && j == 1
    capsEnemy := [], capsOurs := [] }

/-- Attacker state whose flee history holds four entries with three
consecutive gaps of 1 turn each. -/
def fleeStateFour : AttackAgent.State :=
  { food_in_last_turn := 1, food_eaten := 0, capsules_in_last_turn := 0
    turns_with_capsule_effect := 0, first_actions := []
    already_randomized := true, turn_counter := 9
    has_fled := [0, 1, 2, 3]
    fleeing_point := none, turns_has_to_flee := 0, last_fled_turn_checked := 99 }

/-- Attacker state whose flee history holds five entries whose last two
gaps are 2 turns each. -/
def fleeStateFive : AttackAgent.State :=
  { food_in_last_turn := 1, food_eaten := 0, capsules_in_last_turn := 0
    turns_with_capsule_effect := 0, first_actions := []
    already_randomized := true, turn_counter := 9
    has_fled := [0, 2, 4, 6, 8]
    fleeing_point := none, turns_has_to_flee := 0, last_fled_turn_checked := 99 }




/-! ### Legal path lemmas -/

theorem followPath_append (walls : Pos → Bool) (acts1 acts2 : List Action) :
    ∀ p, followPath walls p (acts1 ++ acts2) =
      (followPath walls p acts1).bind (fun q => followPath walls q acts2) := by
  induction acts1 with
  | nil => intro p; simp [followPath]
  | cons a rest ih =>
    intro p
    simp only [List.cons_append, followPath]
    by_cases hc : a ≠ Action.Stop ∧ walls (stepPos p a) = false
    · rw [if_pos hc, if_pos hc]; exact ih (stepPos p a)
    · rw [if_neg hc, if_neg hc]; rfl

theorem followPath_concat (walls : Pos → Bool) (start : Pos) (bs : List Action)
    (a : Action) (z : Pos) :
    followPath walls start (bs ++ [a]) = some z ↔
      ∃ v, followPath walls start bs = some v ∧ a ≠ Action.Stop ∧
        walls (stepPos v a) = false ∧ z = stepPos v a := by
  rw [followPath_append]
  constructor
  · intro h
    match hb : followPath walls start bs with
    | none => rw [hb] at h; simp at h
    | some v =>
      rw [hb] at h
      simp only [Option.some_bind] at h
      unfold followPath at h
      by_cases hc : a ≠ Action.Stop ∧ walls (stepPos v a) = false
      · rw [if_pos hc] at h
        unfold followPath at h
        exact ⟨v, rfl, hc.1, hc.2, (Option.some_injective _ h).symm⟩
      · rw [if_neg hc] at h; simp at h
  · rintro ⟨v, hb, hs, hw, hz⟩
    rw [hb]
    simp only [Option.some_bind]
    unfold followPath
    rw [if_pos ⟨hs, hw⟩]
    unfold followPath
    rw [hz]

theorem followPath_stop_not_mem (walls : Pos → Bool) :
    ∀ acts p q, followPath walls p acts = some q → Action.Stop ∉ acts := by
  intro acts
  induction acts with
  | nil => intro p q _ h; simp at h
  | cons a rest ih =>
    intro p q h
    unfold followPath at h
    by_cases hc : a ≠ Action.Stop ∧ walls (stepPos p a) = false
    · rw [if_pos hc] at h
      intro hmem
      rcases List.mem_cons.mp hmem with h1 | h2
      · exact hc.1 h1.symm
      · exact ih _ _ h h2
    · rw [if_neg hc] at h; simp at h

theorem mem_successors (walls : Pos → Bool) (p : Pos) (sa : Pos × Action) :
    sa ∈ successors walls p ↔
      sa.2 ≠ Action.Stop ∧ walls (stepPos p sa.2) = false ∧ sa.1 = stepPos p sa.2 := by
  obtain ⟨s1, s2⟩ := sa
  unfold successors get_legal_actions_own
  rw [List.mem_filterMap]
  constructor
  · rintro ⟨a, ha, hm⟩
    rw [List.mem_filter] at ha
    have hw := ha.2
    simp only [Bool.not_eq_true'] at hw
    cases a with
    | Stop => simp at hm
    | North =>
      obtain ⟨h1, h2⟩ := Prod.mk.injEq .. ▸ Option.some.inj hm
      subst h1; subst h2; exact ⟨by simp, hw, rfl⟩
    | South =>
      obtain ⟨h1, h2⟩ := Prod.mk.injEq .. ▸ Option.some.inj hm
      subst h1; subst h2; exact ⟨by simp, hw, rfl⟩
    | East =>
      obtain ⟨h1, h2⟩ := Prod.mk.injEq .. ▸ Option.some.inj hm
      subst h1; subst h2; exact ⟨by simp, hw, rfl⟩
    | West =>
      obtain ⟨h1, h2⟩ := Prod.mk.injEq .. ▸ Option.some.inj hm
      subst h1; subst h2; exact ⟨by simp, hw, rfl⟩
  · rintro ⟨hs, hw, hpos⟩
    refine ⟨s2, List.mem_filter.mpr ⟨?_, by simp [hw]⟩, ?_⟩
    · cases s2 <;> simp_all
    · cases s2 with
      | Stop => exact absurd rfl hs
      | North => simp only at hpos ⊢; rw [hpos]
      | South => simp only at hpos ⊢; rw [hpos]
      | East => simp only at hpos ⊢; rw [hpos]
      | West => simp only at hpos ⊢; rw [hpos]

theorem successors_length_le (walls : Pos → Bool) (p : Pos) :
    (successors walls p).length ≤ 5 := by
  unfold successors
  calc (List.filterMap _ _).length ≤ (get_legal_actions_own walls p).length :=
        List.length_filterMap_le _ _
    _ ≤ 5 := by
        unfold get_legal_actions_own
        exact List.length_filter_le _ _


/-! ### Frontier model lemmas -/

theorem popMin_eq_none (f : List Entry) : popMin f = none ↔ f = [] := by
  cases f with
  | nil => simp [popMin]
  | cons e rest =>
    simp only [popMin]
    constructor
    · intro h
      split at h
      · simp at h
      · split at h <;> simp at h
    · intro h; simp at h

theorem popMin_perm (f : List Entry) :
    ∀ e f', popMin f = some (e, f') → f.Perm (e :: f') := by
  induction f with
  | nil => intro e f' h; simp [popMin] at h
  | cons a rest ih =>
    intro e f' h
    simp only [popMin] at h
    split at h
    · rename_i hr
      obtain ⟨h1, h2⟩ := Prod.mk.injEq .. ▸ Option.some.inj h
      rw [popMin_eq_none] at hr
      subst h1; subst h2; rw [hr]
    · rename_i m rest' hr
      split at h
      · rename_i hle
        obtain ⟨h1, h2⟩ := Prod.mk.injEq .. ▸ Option.some.inj h
        subst h1; subst h2
        exact List.Perm.refl _
      · rename_i hle
        obtain ⟨h1, h2⟩ := Prod.mk.injEq .. ▸ Option.some.inj h
        subst h1; subst h2
        exact ((ih m rest' hr).cons a).trans (List.Perm.swap m a rest')

theorem popMin_min (f : List Entry) :
    ∀ e f', popMin f = some (e, f') → ∀ e2 ∈ f, e.priority ≤ e2.priority := by
  induction f with
  | nil => intro e f' h; simp [popMin] at h
  | cons a rest ih =>
    intro e f' h e2 he2
    simp only [popMin] at h
    split at h
    · rename_i hr
      obtain ⟨h1, h2⟩ := Prod.mk.injEq .. ▸ Option.some.inj h
      rw [popMin_eq_none] at hr
      subst h1
      rcases List.mem_cons.mp he2 with h3 | h3
      · rw [h3]
      · rw [hr] at h3; simp at h3
    · rename_i m rest' hr
      split at h
      · rename_i hle
        obtain ⟨h1, h2⟩ := Prod.mk.injEq .. ▸ Option.some.inj h
        subst h1
        rcases List.mem_cons.mp he2 with h3 | h3
        · rw [h3]
        · exact le_trans hle (ih m rest' hr e2 h3)
      · rename_i hle
        obtain ⟨h1, h2⟩ := Prod.mk.injEq .. ▸ Option.some.inj h
        subst h1
        rcases List.mem_cons.mp he2 with h3 | h3
        · rw [h3]; exact le_of_not_le hle
        · exact ih m rest' hr e2 h3

theorem popMin_mem (f : List Entry) (e : Entry) (f' : List Entry)
    (h : popMin f = some (e, f')) : e ∈ f :=
  (popMin_perm f e f' h).symm.subset (List.mem_cons_self e f')

theorem popMin_sub (f : List Entry) (e : Entry) (f' : List Entry)
    (h : popMin f = some (e, f')) : ∀ e2 ∈ f', e2 ∈ f :=
  fun _ he2 => (popMin_perm f e f' h).symm.subset (List.mem_cons_of_mem e he2)

theorem popMin_length (f : List Entry) (e : Entry) (f' : List Entry)
    (h : popMin f = some (e, f')) : f.length = f'.length + 1 := by
  have := (popMin_perm f e f' h).length_eq
  simpa using this

theorem mem_frontierUpdate (f : List Entry) (e e2 : Entry)
    (h : e2 ∈ frontierUpdate f e) : e2 ∈ f ∨ e2 = e := by
  unfold frontierUpdate at h
  split at h
  · rcases List.mem_map.mp h with ⟨x, hx, hxe⟩
    by_cases hc : x.pos = e.pos ∧ e.priority < x.priority
    · rw [if_pos hc] at hxe; right; exact hxe.symm
    · rw [if_neg hc] at hxe; left; rw [← hxe]; exact hx
  · rcases List.mem_append.mp h with h1 | h1
    · left; exact h1
    · right; simpa using h1

theorem frontierUpdate_length (f : List Entry) (e : Entry) :
    (frontierUpdate f e).length ≤ f.length + 1 := by
  unfold frontierUpdate
  split
  · rw [List.length_map]; omega
  · rw [List.length_append]; simp

theorem frontierUpdate_posNodup (f : List Entry) (e : Entry)
    (h : (f.map Entry.pos).Nodup) : ((frontierUpdate f e).map Entry.pos).Nodup := by
  unfold frontierUpdate
  split
  · have heq : (f.map (fun e2 => if e2.pos = e.pos ∧ e.priority < e2.priority then e else e2)).map Entry.pos
        = f.map Entry.pos := by
      rw [List.map_map]
      refine List.map_congr_left fun x _ => ?_
      by_cases hc : x.pos = e.pos ∧ e.priority < x.priority
      · simp only [Function.comp_apply, if_pos hc]; exact hc.1.symm
      · simp only [Function.comp_apply, if_neg hc]
    rw [heq]; exact h
  · rename_i hany
    rw [Bool.not_eq_true, List.any_eq_false] at hany
    rw [List.map_append]
    simp only [List.map_cons, List.map_nil]
    rw [List.nodup_append]
    refine ⟨h, List.nodup_singleton _, ?_⟩
    intro x hx
    simp only [List.mem_singleton]
    rcases List.mem_map.mp hx with ⟨x2, hx2, hxe⟩
    intro hcon
    exact hany x2 hx2 (by rw [beq_iff_eq, hxe, hcon])


/-! ### A* frontier entry invariants -/

theorem frontierUpdate_witness (walls : Pos → Bool) (start : Pos)
    (f : List Entry) (e e0 : Entry) (w : Pos) (m : Nat)
    (hf : ∀ x ∈ f, EntryInv walls start x) (he : EntryInv walls start e)
    (h0 : e0 ∈ f) (hp : e0.pos = w) (hl : e0.actions.length ≤ m) :
    ∃ e1 ∈ frontierUpdate f e, e1.pos = w ∧ e1.actions.length ≤ m := by
  unfold frontierUpdate
  split
  · refine ⟨if e0.pos = e.pos ∧ e.priority < e0.priority then e else e0,
      List.mem_map_of_mem _ h0, ?_⟩
    by_cases hc : e0.pos = e.pos ∧ e.priority < e0.priority
    · rw [if_pos hc]
      have h1 := (hf e0 h0).2.2
      have h2 := he.2.2
      refine ⟨by rw [← hc.1, hp], by omega⟩
    · rw [if_neg hc]; exact ⟨hp, hl⟩
  · exact ⟨e0, List.mem_append_left _ h0, hp, hl⟩

theorem frontierUpdate_creates (walls : Pos → Bool) (start : Pos)
    (f : List Entry) (e : Entry)
    (hf : ∀ x ∈ f, EntryInv walls start x) (he : EntryInv walls start e) :
    ∃ e1 ∈ frontierUpdate f e, e1.pos = e.pos ∧
      e1.actions.length ≤ e.actions.length := by
  unfold frontierUpdate
  split
  · rename_i hany
    rw [List.any_eq_true] at hany
    obtain ⟨x, hx, hxp⟩ := hany
    rw [beq_iff_eq] at hxp
    refine ⟨if x.pos = e.pos ∧ e.priority < x.priority then e else x,
      List.mem_map_of_mem _ hx, ?_⟩
    by_cases hc : x.pos = e.pos ∧ e.priority < x.priority
    · rw [if_pos hc]; exact ⟨rfl, le_refl _⟩
    · rw [if_neg hc]
      have hup : ¬ e.priority < x.priority := fun hlt => hc ⟨hxp, hlt⟩
      have h1 := (hf x hx).2.2
      have h2 := he.2.2
      exact ⟨hxp, by omega⟩
  · exact ⟨e, List.mem_append_right _ (List.mem_singleton_self _), rfl, le_refl _⟩

theorem frontierUpdate_all (walls : Pos → Bool) (start : Pos)
    (f : List Entry) (e : Entry)
    (hf : ∀ x ∈ f, EntryInv walls start x) (he : EntryInv walls start e) :
    ∀ x ∈ frontierUpdate f e, EntryInv walls start x := by
  intro x hx
  rcases mem_frontierUpdate f e x hx with h1 | h1
  · exact hf x h1
  · rw [h1]; exact he

/-- Combined facts about folding a batch of successor entries into the
frontier: the entry invariant persists, position-distinctness persists, the
length grows by at most the batch size, any witness entry at a position
survives with no longer a trace, and every batch entry leaves a witness at
its position with no longer a trace. -/
theorem foldl_frontierUpdate_spec (walls : Pos → Bool) (start : Pos) :
    ∀ (news : List Entry) (f0 : List Entry),
      (∀ x ∈ f0, EntryInv walls start x) →
      (∀ n ∈ news, EntryInv walls start n) →
      (∀ x ∈ news.foldl frontierUpdate f0, EntryInv walls start x) ∧
      ((f0.map Entry.pos).Nodup → ((news.foldl frontierUpdate f0).map Entry.pos).Nodup) ∧
      ((news.foldl frontierUpdate f0).length ≤ f0.length + news.length) ∧
      (∀ w m, (∃ x ∈ f0, x.pos = w ∧ x.actions.length ≤ m) →
        ∃ x ∈ news.foldl frontierUpdate f0, x.pos = w ∧ x.actions.length ≤ m) ∧
      (∀ n ∈ news, ∃ x ∈ news.foldl frontierUpdate f0, x.pos = n.pos ∧
        x.actions.length ≤ n.actions.length) := by
  intro news
  induction news with
  | nil =>
    intro f0 hf0 _
    refine ⟨hf0, fun h => h, by simp, fun w m hw => hw, by simp⟩
  | cons n ns ih =>
    intro f0 hf0 hnews
    have hn : EntryInv walls start n := hnews n (List.mem_cons_self n ns)
    have hns : ∀ x ∈ ns, EntryInv walls start x :=
      fun x hx => hnews x (List.mem_cons_of_mem n hx)
    have hf1 : ∀ x ∈ frontierUpdate f0 n, EntryInv walls start x :=
      frontierUpdate_all walls start f0 n hf0 hn
    obtain ⟨ha, hb, hc, hd, he⟩ := ih (frontierUpdate f0 n) hf1 hns
    simp only [List.foldl_cons]
    refine ⟨ha, ?_, ?_, ?_, ?_⟩
    · intro h0
      exact hb (frontierUpdate_posNodup f0 n h0)
    · have := frontierUpdate_length f0 n
      simp only [List.length_cons]
      omega
    · intro w m ⟨x, hx, hxp, hxl⟩
      exact hd w m (frontierUpdate_witness walls start f0 n x w m hf0 hn hx hxp hxl)
    · intro n2 hn2
      rcases List.mem_cons.mp hn2 with h1 | h1
      · subst h1
        obtain ⟨x, hx, hxp, hxl⟩ := frontierUpdate_creates walls start f0 n2 hf0 hn
        exact hd n2.pos n2.actions.length ⟨x, hx, hxp, hxl⟩
      · exact he n2 h1


theorem cov_reach (walls : Pos → Bool) (start goal : Pos)
    (f : List Entry) (visited : List Pos)
    (inv : AStarInv walls start goal f visited) :
    ∀ acts z, followPath walls start acts = some z → z ∉ visited →
      ∃ e ∈ f, e.actions.length ≤ acts.length := by
  intro acts
  induction acts using List.reverseRecOn with
  | nil =>
    intro z hz hnv
    have hzs : z = start := by
      have : (some start : Option Pos) = some z := hz
      exact (Option.some.inj this).symm
    subst hzs
    rcases inv.startCov with h1 | ⟨e, he, hp, hl⟩
    · exact absurd h1 hnv
    · exact ⟨e, he, by rw [hl]; exact Nat.zero_le _⟩
  | append_singleton bs a ih =>
    intro z hz hnv
    rw [followPath_concat] at hz
    obtain ⟨v, hbs, hs, hw, hzeq⟩ := hz
    by_cases hvv : v ∈ visited
    · have hsa : ((z, a) : Pos × Action) ∈ successors walls v :=
        (mem_successors walls v (z, a)).mpr ⟨hs, hw, hzeq⟩
      rcases inv.cov v hvv (z, a) hsa with hzv | ⟨e, he, _, hb⟩
      · exact absurd hzv hnv
      · have := hb bs hbs
        exact ⟨e, he, by rw [List.length_append]; simpa using this⟩
    · rcases ih v hbs hvv with ⟨e, he, hl⟩
      exact ⟨e, he, by rw [List.length_append]; omega⟩

theorem popped_le (walls : Pos → Bool) (start goal : Pos)
    (f : List Entry) (visited : List Pos) (em : Entry) (f' : List Entry)
    (inv : AStarInv walls start goal f visited)
    (hpop : popMin f = some (em, f')) :
    ∀ acts z, followPath walls start acts = some z → z ∉ visited →
      em.actions.length ≤ acts.length := by
  intro acts z hz hnv
  obtain ⟨e, he, hl⟩ := cov_reach walls start goal f visited inv acts z hz hnv
  have hmin := popMin_min f em f' hpop e he
  have h1 := (inv.good em (popMin_mem f em f' hpop)).2.2
  have h2 := (inv.good e he).2.2
  omega

theorem popMin_mem_rest (f : List Entry) (em : Entry) (f' : List Entry)
    (hpop : popMin f = some (em, f')) (e : Entry) (he : e ∈ f) (hne : e ≠ em) :
    e ∈ f' := by
  have := (popMin_perm f em f' hpop).subset he
  rcases List.mem_cons.mp this with h1 | h1
  · exact absurd h1 hne
  · exact h1

theorem skip_preserve (walls : Pos → Bool) (start goal : Pos)
    (f : List Entry) (visited : List Pos) (em : Entry) (f' : List Entry)
    (inv : AStarInv walls start goal f visited)
    (hpop : popMin f = some (em, f')) (hv : em.pos ∈ visited) :
    AStarInv walls start goal f' visited := by
  refine ⟨?_, ?_, inv.goalNotVisited, ?_, ?_⟩
  · exact fun e he => inv.good e (popMin_sub f em f' hpop e he)
  · have hperm := (popMin_perm f em f' hpop).map Entry.pos
    exact (inv.nodupPos.perm hperm).of_cons
  · rcases inv.startCov with h1 | ⟨e, he, hp, hl⟩
    · exact Or.inl h1
    · by_cases hne : e = em
      · subst hne; rw [hp] at hv; exact Or.inl hv
      · exact Or.inr ⟨e, popMin_mem_rest f em f' hpop e he hne, hp, hl⟩
  · intro v hvv sa hsa
    rcases inv.cov v hvv sa hsa with h1 | ⟨e, he, hp, hb⟩
    · exact Or.inl h1
    · by_cases hne : e = em
      · subst hne; rw [hp] at hv; exact Or.inl hv
      · exact Or.inr ⟨e, popMin_mem_rest f em f' hpop e he hne, hp, hb⟩

theorem expand_preserve (walls : Pos → Bool) (start goal : Pos)
    (f : List Entry) (visited : List Pos) (em : Entry) (f' : List Entry)
    (inv : AStarInv walls start goal f visited)
    (hpop : popMin f = some (em, f')) (hv : em.pos ∉ visited) (hg : em.pos ≠ goal) :
    AStarInv walls start goal
      (((successors walls em.pos).map (fun sa =>
          Entry.mk sa.1 (em.actions ++ [sa.2]) (em.cost + 1 + 1) (em.cost + 1 + 1))).foldl
        frontierUpdate f')
      (em.pos :: visited) := by
  have hemInv := inv.good em (popMin_mem f em f' hpop)
  have hf' : ∀ x ∈ f', EntryInv walls start x :=
    fun x hx => inv.good x (popMin_sub f em f' hpop x hx)
  have hnews : ∀ n ∈ (successors walls em.pos).map (fun sa =>
      Entry.mk sa.1 (em.actions ++ [sa.2]) (em.cost + 1 + 1) (em.cost + 1 + 1)),
      EntryInv walls start n := by
    intro n hn
    rcases List.mem_map.mp hn with ⟨sa, hsa, hne⟩
    rcases (mem_successors walls em.pos sa).mp hsa with ⟨hs, hw, hp⟩
    subst hne
    refine ⟨?_, rfl, ?_⟩
    · rw [followPath_concat]
      exact ⟨em.pos, hemInv.1, hs, hw, hp⟩
    · have h1 := hemInv.2.1
      have h2 := hemInv.2.2
      simp only [List.length_append, List.length_cons, List.length_nil]
      omega
  obtain ⟨hall, hnodup, _, hpres, hcreate⟩ :=
    foldl_frontierUpdate_spec walls start _ f' hf' hnews
  have hf'nodup : (f'.map Entry.pos).Nodup := by
    have hperm := (popMin_perm f em f' hpop).map Entry.pos
    exact (inv.nodupPos.perm hperm).of_cons
  refine ⟨hall, hnodup hf'nodup, ?_, ?_, ?_⟩
  · intro hmem
    rcases List.mem_cons.mp hmem with h1 | h1
    · exact hg h1.symm
    · exact inv.goalNotVisited h1
  · rcases inv.startCov with h1 | ⟨e, he, hp, hl⟩
    · exact Or.inl (List.mem_cons_of_mem _ h1)
    · by_cases hne : e = em
      · subst hne; rw [← hp]; exact Or.inl (List.mem_cons_self _ _)
      · have he' : e ∈ f' := popMin_mem_rest f em f' hpop e he hne
        obtain ⟨x, hx, hxp, hxl⟩ := hpres start 0 ⟨e, he', hp, by omega⟩
        exact Or.inr ⟨x, hx, hxp, by omega⟩
  · intro v hvv sa hsa
    rcases List.mem_cons.mp hvv with hveq | hvin
    · subst hveq
      obtain ⟨x, hx, hxp, hxl⟩ := hcreate
        (Entry.mk sa.1 (em.actions ++ [sa.2]) (em.cost + 1 + 1) (em.cost + 1 + 1))
        (List.mem_map_of_mem _ hsa)
      right
      refine ⟨x, hx, hxp, ?_⟩
      intro acts hacts
      have hb := popped_le walls start goal f visited em f' inv hpop acts em.pos hacts hv
      simp only [List.length_append, List.length_cons, List.length_nil] at hxl
      omega
    · rcases inv.cov v hvin sa hsa with h1 | ⟨e, he, hp, hb⟩
      · exact Or.inl (List.mem_cons_of_mem _ h1)
      · by_cases hne : e = em
        · subst hne; rw [← hp]; exact Or.inl (List.mem_cons_self _ _)
        · have he' : e ∈ f' := popMin_mem_rest f em f' hpop e he hne
          obtain ⟨x, hx, hxp, hxl⟩ :=
            hpres sa.1 e.actions.length ⟨e, he', hp, le_refl _⟩
          exact Or.inr ⟨x, hx, hxp, fun acts hacts => le_trans hxl (hb acts hacts)⟩


/-- Main loop lemma for the constant-1 heuristic: from any state satisfying
the invariant, the loop never reports no-path when the goal is reachable,
and any returned trace is a legal shortest route from start to goal. -/
theorem aStarLoop_main (walls : Pos → Bool) (start goal : Pos)
    (hreach : ∃ acts0, followPath walls start acts0 = some goal) :
    ∀ fuel f visited, AStarInv walls start goal f visited →
      (aStarLoop (fun _ => 1) walls goal fuel f visited ≠ SearchResult.noPath) ∧
      (∀ p acts,
        aStarLoop (fun _ => 1) walls goal fuel f visited = SearchResult.found p acts →
        p = goal ∧ followPath walls start acts = some goal ∧
          ∀ acts2, followPath walls start acts2 = some goal →
            acts.length ≤ acts2.length) := by
  intro fuel
  induction fuel with
  | zero =>
    intro f visited _
    exact ⟨by simp [aStarLoop], fun p acts h => by simp [aStarLoop] at h⟩
  | succ fuel ih =>
    intro f visited inv
    simp only [aStarLoop]
    cases hpop : popMin f with
    | none =>
      exfalso
      obtain ⟨acts0, h0⟩ := hreach
      obtain ⟨e, he, _⟩ :=
        cov_reach walls start goal f visited inv acts0 goal h0 inv.goalNotVisited
      rw [popMin_eq_none] at hpop
      rw [hpop] at he
      simp at he
    | some emf =>
      obtain ⟨em, f'⟩ := emf
      by_cases hv : em.pos ∈ visited
      · simp only [if_pos hv]
        exact ih f' visited (skip_preserve walls start goal f visited em f' inv hpop hv)
      · simp only [if_neg hv]
        by_cases hg : em.pos = goal
        · simp only [if_pos hg]
          refine ⟨by simp, ?_⟩
          intro p acts heq
          obtain ⟨h1, h2⟩ := SearchResult.found.inj heq
          have hemInv := inv.good em (popMin_mem f em f' hpop)
          refine ⟨by rw [← h1, hg], ?_, ?_⟩
          · rw [← h2, ← hg]; exact hemInv.1
          · intro acts2 hacts2
            rw [← h2]
            exact popped_le walls start goal f visited em f' inv hpop acts2 goal
              hacts2 inv.goalNotVisited
        · simp only [if_neg hg]
          rw [← List.foldl_map
            (fun sa : Pos × Action =>
              Entry.mk sa.1 (em.actions ++ [sa.2]) (em.cost + 1 + 1) (em.cost + 1 + 1))
            frontierUpdate]
          exact ih _ _ (expand_preserve walls start goal f visited em f' inv hpop hv hg)


theorem foldl_frontierUpdate_pred (P : Entry → Prop) :
    ∀ (news : List Entry) (f0 : List Entry), (∀ x ∈ f0, P x) → (∀ n ∈ news, P n) →
      ∀ x ∈ news.foldl frontierUpdate f0, P x := by
  intro news
  induction news with
  | nil => intro f0 hf0 _ x hx; exact hf0 x hx
  | cons n ns ih =>
    intro f0 hf0 hnews x hx
    simp only [List.foldl_cons] at hx
    refine ih (frontierUpdate f0 n) ?_ (fun y hy => hnews y (List.mem_cons_of_mem n hy)) x hx
    intro y hy
    rcases mem_frontierUpdate f0 n y hy with h1 | h1
    · exact hf0 y h1
    · rw [h1]; exact hnews n (List.mem_cons_self n ns)

/-- Route validity under an arbitrary heuristic: whatever the heuristic,
a returned trace is a legal move sequence from the start that ends exactly
on the goal. -/
theorem aStarLoop_path (h : Pos → Nat) (walls : Pos → Bool) (start goal : Pos) :
    ∀ fuel f visited, (∀ e ∈ f, followPath walls start e.actions = some e.pos) →
      ∀ p acts, aStarLoop h walls goal fuel f visited = SearchResult.found p acts →
        p = goal ∧ followPath walls start acts = some goal := by
  intro fuel
  induction fuel with
  | zero => intro f visited _ p acts hres; simp [aStarLoop] at hres
  | succ fuel ih =>
    intro f visited hf p acts hres
    simp only [aStarLoop] at hres
    cases hpop : popMin f with
    | none => rw [hpop] at hres; simp at hres
    | some emf =>
      obtain ⟨em, f'⟩ := emf
      rw [hpop] at hres
      by_cases hv : em.pos ∈ visited
      · simp only [if_pos hv] at hres
        exact ih f' visited (fun e he => hf e (popMin_sub f em f' hpop e he)) p acts hres
      · simp only [if_neg hv] at hres
        by_cases hg : em.pos = goal
        · simp only [if_pos hg] at hres
          obtain ⟨h1, h2⟩ := SearchResult.found.inj hres
          have hemp := hf em (popMin_mem f em f' hpop)
          refine ⟨by rw [← h1, hg], ?_⟩
          rw [← h2, ← hg]
          exact hemp
        · simp only [if_neg hg] at hres
          rw [← List.foldl_map
            (fun sa : Pos × Action =>
              Entry.mk sa.1 (em.actions ++ [sa.2]) (em.cost + 1 + h sa.1)
                (em.cost + 1 + h sa.1))
            frontierUpdate] at hres
          refine ih _ _ ?_ p acts hres
          apply foldl_frontierUpdate_pred
          · exact fun e he => hf e (popMin_sub f em f' hpop e he)
          · intro n hn
            rcases List.mem_map.mp hn with ⟨sa, hsa, hne⟩
            rcases (mem_successors walls em.pos sa).mp hsa with ⟨hs, hw, hp⟩
            subst hne
            rw [followPath_concat]
            exact ⟨em.pos, hf em (popMin_mem f em f' hpop), hs, hw, hp⟩

theorem followPath_disp (walls : Pos → Bool) :
    ∀ acts p q, followPath walls p acts = some q →
      (q.1 - p.1).natAbs ≤ acts.length ∧ (q.2 - p.2).natAbs ≤ acts.length := by
  intro acts
  induction acts with
  | nil =>
    intro p q h
    have : p = q := Option.some.inj h
    subst this
    simp
  | cons a rest ih =>
    intro p q h
    unfold followPath at h
    by_cases hc : a ≠ Action.Stop ∧ walls (stepPos p a) = false
    · rw [if_pos hc] at h
      obtain ⟨h1, h2⟩ := ih (stepPos p a) q h
      have hstep : ((stepPos p a).1 - p.1).natAbs ≤ 1 ∧
          ((stepPos p a).2 - p.2).natAbs ≤ 1 := by
        obtain ⟨x, y⟩ := p
        cases a <;> simp [stepPos]
      obtain ⟨h3, h4⟩ := hstep
      simp only [List.length_cons]
      omega
    · rw [if_neg hc] at h; simp at h

theorem nodup_subset_card {α : Type} [DecidableEq α] (v : List α) (B : Finset α)
    (hn : v.Nodup) (hs : ∀ x ∈ v, x ∈ B) : v.length ≤ B.card := by
  have h1 : v.toFinset.card = v.length := List.toFinset_card_of_nodup hn
  have h2 : v.toFinset ⊆ B := fun x hx => hs x (List.mem_toFinset.mp hx)
  have := Finset.card_le_card h2
  omega

theorem mem_reachBox (start : Pos) (d : Nat) (p : Pos)
    (h1 : (p.1 - start.1).natAbs ≤ d) (h2 : (p.2 - start.2).natAbs ≤ d) :
    p ∈ reachBox start d := by
  unfold reachBox
  rw [Finset.mem_product, Finset.mem_Icc, Finset.mem_Icc]
  omega

theorem aStarSearch_initial_inv (walls : Pos → Bool) (start goal : Pos)
    (hng : goal ∉ ([] : List Pos)) :
    AStarInv walls start goal [⟨start, [], 0, 0⟩] [] := by
  refine ⟨?_, by simp, hng, ?_, by simp⟩
  · intro e he
    rw [List.mem_singleton] at he
    subst he
    exact ⟨rfl, rfl, rfl⟩
  · exact Or.inr ⟨⟨start, [], 0, 0⟩, List.mem_singleton_self _, rfl, rfl⟩

/-- Termination with sufficient fuel: every expansion settles a fresh cell
inside the reach box, so the loop returns a found result before the fuel
bound below runs out. -/
theorem aStarLoop_complete (walls : Pos → Bool) (start goal : Pos) (d : Nat)
    (hpath : ∃ acts0, followPath walls start acts0 = some goal ∧ acts0.length = d) :
    ∀ fuel f visited, AStarInv walls start goal f visited → visited.Nodup →
      (∀ v ∈ visited, v ∈ reachBox start d) →
      6 * ((reachBox start d).card + 1 - visited.length) + f.length + 1 ≤ fuel →
      ∃ p acts,
        aStarLoop (fun _ => 1) walls goal fuel f visited =
          SearchResult.found p acts := by
  intro fuel
  induction fuel with
  | zero => intro f visited _ _ _ hm; omega
  | succ fuel ih =>
    intro f visited inv hnd hball hm
    simp only [aStarLoop]
    cases hpop : popMin f with
    | none =>
      exfalso
      obtain ⟨acts0, h0, _⟩ := hpath
      obtain ⟨e, he, _⟩ :=
        cov_reach walls start goal f visited inv acts0 goal h0 inv.goalNotVisited
      rw [popMin_eq_none] at hpop
      rw [hpop] at he
      simp at he
    | some emf =>
      obtain ⟨em, f'⟩ := emf
      have hflen := popMin_length f em f' hpop
      by_cases hv : em.pos ∈ visited
      · simp only [if_pos hv]
        refine ih f' visited
          (skip_preserve walls start goal f visited em f' inv hpop hv) hnd hball ?_
        omega
      · simp only [if_neg hv]
        by_cases hg : em.pos = goal
        · simp only [if_pos hg]
          exact ⟨em.pos, em.actions, rfl⟩
        · simp only [if_neg hg]
          rw [← List.foldl_map
            (fun sa : Pos × Action =>
              Entry.mk sa.1 (em.actions ++ [sa.2]) (em.cost + 1 + 1) (em.cost + 1 + 1))
            frontierUpdate]
          have hemlen : em.actions.length ≤ d := by
            obtain ⟨acts0, h0, hl0⟩ := hpath
            have := popped_le walls start goal f visited em f' inv hpop acts0 goal
              h0 inv.goalNotVisited
            omega
          have hemball : em.pos ∈ reachBox start d := by
            have hemp := (inv.good em (popMin_mem f em f' hpop)).1
            obtain ⟨h1, h2⟩ := followPath_disp walls em.actions start em.pos hemp
            exact mem_reachBox start d em.pos (by omega) (by omega)
          have hvlen : visited.length ≤ (reachBox start d).card :=
            nodup_subset_card visited (reachBox start d) hnd hball
          obtain ⟨_, _, hflen2, _, _⟩ := foldl_frontierUpdate_spec walls start
            ((successors walls em.pos).map (fun sa =>
              Entry.mk sa.1 (em.actions ++ [sa.2]) (em.cost + 1 + 1) (em.cost + 1 + 1)))
            f'
            (fun x hx => inv.good x (popMin_sub f em f' hpop x hx))
            (by
              intro n hn
              rcases List.mem_map.mp hn with ⟨sa, hsa, hne⟩
              rcases (mem_successors walls em.pos sa).mp hsa with ⟨hs, hw, hp⟩
              subst hne
              have hemInv := inv.good em (popMin_mem f em f' hpop)
              refine ⟨?_, rfl, ?_⟩
              · rw [followPath_concat]
                exact ⟨em.pos, hemInv.1, hs, hw, hp⟩
              · have h1 := hemInv.2.1
                have h2 := hemInv.2.2
                simp only [List.length_append, List.length_cons, List.length_nil]
                omega)
          have hsucclen : ((successors walls em.pos).map (fun sa =>
              Entry.mk sa.1 (em.actions ++ [sa.2]) (em.cost + 1 + 1)
                (em.cost + 1 + 1))).length ≤ 5 := by
            rw [List.length_map]
            exact successors_length_le walls em.pos
          refine ih _ _
            (expand_preserve walls start goal f visited em f' inv hpop hv hg)
            (List.nodup_cons.mpr ⟨hv, hnd⟩)
            (by
              intro x hx
              rcases List.mem_cons.mp hx with h1 | h1
              · rw [h1]; exact hemball
              · exact hball x h1)
            (by
              simp only [List.length_cons]
              omega)



/-! ### Claim theorems -/

/-- C2: for every (start, goal) pair connected by a legal route at true
maze distance `d`, `aStarSearch` with the constant-1 heuristic returns a
move sequence whose length equals `d` whenever it returns a result, and a
result is returned for sufficient fuel; for any strictly positive
heuristic, a returned sequence applied one step at a time from start is a
legal path whose final position is exactly the goal, never overshooting. -/
theorem aStar_shortest_and_legal (walls : Pos → Bool) (start goal : Pos) (d : Nat)
    (hd : isMinDist walls start goal d) :
    (∀ fuel p acts,
        aStarSearch (fun _ => 1) walls start goal fuel = SearchResult.found p acts →
        p = goal ∧ acts.length = d) ∧
    (∃ fuel p acts,
        aStarSearch (fun _ => 1) walls start goal fuel = SearchResult.found p acts) ∧
    (∀ (h : Pos → Nat), (∀ q, 0 < h q) →
      ∀ fuel p acts, aStarSearch h walls start goal fuel = SearchResult.found p acts →
        p = goal ∧ followPath walls start acts = some goal) := by
  obtain ⟨⟨acts0, hacts0, hlen0⟩, hmin⟩ := hd
  have hreach : ∃ a0, followPath walls start a0 = some goal := ⟨acts0, hacts0⟩
  have hinv := aStarSearch_initial_inv walls start goal (List.not_mem_nil goal)
  refine ⟨?_, ?_, ?_⟩
  · intro fuel p acts heq
    have hmain := (aStarLoop_main walls start goal hreach fuel _ _ hinv).2 p acts heq
    refine ⟨hmain.1, ?_⟩
    have h1 := hmain.2.2 acts0 hacts0
    have h2 := hmin acts hmain.2.1
    omega
  · obtain ⟨p, acts, hfound⟩ := aStarLoop_complete walls start goal d
      ⟨acts0, hacts0, hlen0⟩ (6 * ((reachBox start d).card + 1) + 2) _ _
      hinv List.nodup_nil (by simp) (by simp)
    exact ⟨_, p, acts, hfound⟩
  · intro h _ fuel p acts heq
    exact aStarLoop_path h walls start goal fuel _ _
      (by intro e he; rw [List.mem_singleton] at he; subst he; rfl) p acts heq

/-- Witness for the planner theorem, on a two-cell corridor of true
distance 1. -/
theorem aStar_shortest_and_legal_witness :
    aStarSearch (fun _ => 1) pairWalls ((0, 0) : Pos) ((1, 0) : Pos) 20 =
      SearchResult.found ((1, 0) : Pos) [Action.East] ∧
    ([Action.East] : List Action).length = 1 := by
  have hd : isMinDist pairWalls (0, 0) (1, 0) 1 := by
    constructor
    · exact ⟨[Action.East], by decide, rfl⟩
    · intro acts hacts
      cases acts with
      | nil => exact absurd hacts (by decide)
      | cons a rest => simp
  have h := aStar_shortest_and_legal pairWalls (0, 0) (1, 0) 1 hd
  exact ⟨by decide, (h.1 20 (1, 0) [Action.East] (by decide)).2⟩

/-- C9: the collision filter is total when the proposed move is cardinal;
a Stop proposal on a board where legal pairs survive the filter reaches the
unbound-name error branch; and the planner never emits Stop, so every call
site that passes the head of a planner trace meets the precondition. -/
theorem avoid_enemy_collision_total_on_cardinal :
    (∀ (o : Oracle) (current_pos : Pos) (next_action : Action) (r : Nat),
        next_action ≠ Action.Stop →
        (avoid_enemy_collision o current_pos next_action r).isSome = true) ∧
    avoid_enemy_collision collisionOracle ((2, 2) : Pos) Action.Stop 0 = none ∧
    (∀ (h : Pos → Nat) (walls : Pos → Bool) (start goal : Pos) (fuel : Nat)
        (p : Pos) (acts : List Action),
        aStarSearch h walls start goal fuel = SearchResult.found p acts →
        Action.Stop ∉ acts) := by
  refine ⟨?_, by decide, ?_⟩
  · intro o current_pos next_action r hstop
    unfold avoid_enemy_collision
    cases next_action with
    | Stop => exact absurd rfl hstop
    | North => dsimp only; split
               · split <;> simp
               · simp
    | South => dsimp only; split
               · split <;> simp
               · simp
    | East => dsimp only; split
              · split <;> simp
              · simp
    | West => dsimp only; split
              · split <;> simp
              · simp
  · intro h walls start goal fuel p acts heq
    have hp := aStarLoop_path h walls start goal fuel _ _
      (by intro e he; rw [List.mem_singleton] at he; subst he; rfl) p acts heq
    exact followPath_stop_not_mem walls acts start goal hp.2

/-- Witness for the collision-filter precondition theorem. -/
theorem avoid_enemy_collision_total_witness :
    (avoid_enemy_collision collisionOracle ((2, 2) : Pos) Action.East 0).isSome = true ∧
    Action.Stop ∉ [Action.East] :=
  ⟨avoid_enemy_collision_total_on_cardinal.1 collisionOracle ((2, 2) : Pos)
      Action.East 0 (by decide),
    avoid_enemy_collision_total_on_cardinal.2.2 (fun _ => 1) pairWalls
      ((0, 0) : Pos) ((1, 0) : Pos) 20 ((1, 0) : Pos) [Action.East] (by decide)⟩



/-- C1 (divergence witness): on `collisionOracle` the filter is asked to
confirm East from `(2, 2)` into `(3, 2)`; the visible enemy at `(3, 1)`
outside home territory is at maze distance 1 from both `(2, 1)` and
`(3, 2)`, and because the enemy loop removes from the list it is
iterating, `(3, 2)` is skipped and survives, so the colliding East is
returned even though North and West both lead at least distance 2 away
from every such enemy. -/
theorem avoid_enemy_collision_keeps_colliding_move :
    avoid_enemy_collision collisionOracle ((2, 2) : Pos) Action.East 0 =
      some Action.East ∧
    collisionOracle.dist ((3, 2) : Pos) ((3, 1) : Pos) = 1 ∧
    in_our_field collisionOracle ((3, 1) : Pos) = false ∧
    Action.North ∈ get_legal_actions_own collisionOracle.walls collisionOracle.myPos ∧
    2 ≤ collisionOracle.dist (stepPos ((2, 2) : Pos) Action.North) ((3, 1) : Pos) ∧
    Action.West ∈ get_legal_actions_own collisionOracle.walls collisionOracle.myPos ∧
    2 ≤ collisionOracle.dist (stepPos ((2, 2) : Pos) Action.West) ((3, 1) : Pos) := by
  refine ⟨by decide, by decide, by decide, by decide, by decide, by decide, by decide⟩

/-- C3 (divergence witness): on the disconnected `splitOracle` the planner
reports no path as the bare empty sequence, and `do_vertical_patrol`
unpacks that bare return and indexes into it, so the call faults (`none`)
instead of producing the Stop move. -/
theorem do_vertical_patrol_faults_on_no_path :
    aStarSearch (DefendAgent.heuristic splitOracle) splitOracle.walls
        ((0, 0) : Pos) ((5, 5) : Pos) 50 = SearchResult.noPath ∧
    DefendAgent.do_vertical_patrol splitOracle 50 splitState = none := by
  exact ⟨by decide, by decide⟩

/-- C6 counterexample: with the capsule effect at remaining duration 2 and
the visible enemy at true maze distance 5, the defender pursues (moves
East toward the enemy) rather than patrolling (the patrol move is West);
with duration 6 and distance 2 it patrols rather than pursuing.  The
distance oracle is certified as the true maze distance on the corridor. -/
theorem defender_capsule_scenarios_counterexample :
    DefendAgent.decide_action_enemy_close_in_our_field patrolOracle 60 ((8, 1) : Pos)
        (patrolState 2) = some (patrolState 2, Action.East) ∧
    DefendAgent.do_vertical_patrol patrolOracle 60 (patrolState 2) =
      some (patrolState 2, Action.West) ∧
    patrolOracle.dist ((3, 1) : Pos) ((8, 1) : Pos) = 5 ∧
    isMinDist patrolOracle.walls ((3, 1) : Pos) ((8, 1) : Pos) 5 ∧
    DefendAgent.decide_action_enemy_close_in_our_field patrolOracle 60 ((5, 1) : Pos)
        (patrolState 6) = some (patrolState 6, Action.West) ∧
    aStarSearch (DefendAgent.heuristic patrolOracle) patrolOracle.walls
        ((3, 1) : Pos) ((5, 1) : Pos) 60 =
      SearchResult.found ((5, 1) : Pos) [Action.East, Action.East] ∧
    patrolOracle.dist ((3, 1) : Pos) ((5, 1) : Pos) = 2 ∧
    Action.East ≠ Action.West := by
  refine ⟨by decide, by decide, by decide, ⟨⟨?_, ?_⟩, ?_⟩, by decide, by decide,
    by decide, by decide⟩
  · exact [Action.East, Action.East, Action.East, Action.East, Action.East]
  · exact ⟨by decide, rfl⟩
  · intro acts hacts
    have hdisp := followPath_disp patrolOracle.walls acts ((3, 1) : Pos)
      ((8, 1) : Pos) hacts
    have : ((8 : Int) - 3).natAbs = 5 := by decide
    omega

/-- C6 amended: the two scenarios with the outcomes the code actually
produces — the defender pursues exactly when the remaining duration is
strictly below the true distance (duration 2 against distance 5) and
patrols otherwise (duration 6 against distance 2), the pursuit move being
the head of the planned route to the enemy's exact position. -/
theorem defender_capsule_scenarios_amended :
    DefendAgent.decide_action_enemy_close_in_our_field patrolOracle 60 ((8, 1) : Pos)
        (patrolState 2) = some (patrolState 2, Action.East) ∧
    aStarSearch (DefendAgent.heuristic patrolOracle) patrolOracle.walls
        ((3, 1) : Pos) ((8, 1) : Pos) 60 =
      SearchResult.found ((8, 1) : Pos)
        [Action.East, Action.East, Action.East, Action.East, Action.East] ∧
    ((2 : Int) < Int.ofNat (patrolOracle.dist ((3, 1) : Pos) ((8, 1) : Pos))) ∧
    DefendAgent.decide_action_enemy_close_in_our_field patrolOracle 60 ((5, 1) : Pos)
        (patrolState 6) = DefendAgent.do_vertical_patrol patrolOracle 60 (patrolState 6) ∧
    (Int.ofNat (patrolOracle.dist ((3, 1) : Pos) ((5, 1) : Pos)) ≤ (6 : Int)) := by
  exact ⟨by decide, by decide, by decide, by decide, by decide⟩



/-- C5: whenever the defender's power-up counter is positive, it pursues a
visible enemy inside home territory (plans a route to the enemy's exact
current position and takes its first move) exactly when the remaining
duration is strictly less than the oracle maze distance to the enemy, and
falls back to vertical patrol otherwise, including on exact equality. -/
theorem defender_capsule_branch (o : Oracle) (fuel : Nat) (enemy_position : Pos)
    (s : DefendAgent.State) (h0 : 0 < s.turns_with_capsule_effect) :
    (s.turns_with_capsule_effect < Int.ofNat (o.dist o.myPos enemy_position) →
      DefendAgent.decide_action_enemy_close_in_our_field o fuel enemy_position s =
        match aStarSearch (DefendAgent.heuristic o) o.walls o.myPos enemy_position fuel with
        | SearchResult.found _ (a :: _) => some (s, a)
        | _ => none) ∧
    (Int.ofNat (o.dist o.myPos enemy_position) ≤ s.turns_with_capsule_effect →
      DefendAgent.decide_action_enemy_close_in_our_field o fuel enemy_position s =
        DefendAgent.do_vertical_patrol o fuel s) := by
  constructor
  · intro hlt
    unfold DefendAgent.decide_action_enemy_close_in_our_field
    rw [if_neg (by omega), if_pos hlt]
  · intro hge
    unfold DefendAgent.decide_action_enemy_close_in_our_field
    rw [if_neg (by omega), if_neg (by omega)]

/-- Witness for the capsule-branch theorem, at duration 2 against distance
5 (pursuit) on the corridor board. -/
theorem defender_capsule_branch_witness :
    (0 : Int) < 2 ∧
    DefendAgent.decide_action_enemy_close_in_our_field patrolOracle 60 ((8, 1) : Pos)
        (patrolState 2) = some (patrolState 2, Action.East) := by
  refine ⟨by decide, ?_⟩
  have h := (defender_capsule_branch patrolOracle 60 ((8, 1) : Pos) (patrolState 2)
    (by decide)).1 (by decide)
  rw [h]
  decide



/-- C7 counterexample: a flee history of four entries whose three
consecutive gaps are all 1 turn, with the agent inside its own territory,
own food remaining, and the most recent entry unchecked — the claimed
trigger condition holds, yet the code does not fire because it demands
more than four recorded entries (and checks only the last two gaps). -/
theorem flee_trigger_counterexample :
    (AttackAgent.has_been_fleeing_too_much fleeOracle fleeStateFour).1 = false ∧
    in_our_field fleeOracle fleeOracle.myPos = true ∧
    get_food_positions_ours fleeOracle ≠ [] ∧
    fleeStateFour.has_fled = [0, 1, 2, 3] ∧
    AttackAgent.nthFromEnd fleeStateFour.has_fled 0 ≠
      fleeStateFour.last_fled_turn_checked ∧
    ((1 : Int) - 0 ≤ AttackAgent.TURNS_FLEEING_TOO_MUCH ∧
      (2 : Int) - 1 ≤ AttackAgent.TURNS_FLEEING_TOO_MUCH ∧
      (3 : Int) - 2 ≤ AttackAgent.TURNS_FLEEING_TOO_MUCH) := by
  decide

/-- C7 amended: the retreat trigger fires exactly when the agent is inside
its own territory, more than four flee turns are recorded, the most recent
entry differs from the last-checked marker, and the last two consecutive
gaps are each at most 4 turns; and when it fires inside
`decide_action_attack` with own food remaining, the fixed 6-turn
must-keep-fleeing window is armed and a rally point is set. -/
theorem flee_trigger_amended :
    (∀ (o : Oracle) (s : AttackAgent.State),
      (AttackAgent.has_been_fleeing_too_much o s).1 = true ↔
        (in_our_field o o.myPos = true ∧ 4 < s.has_fled.length ∧
          AttackAgent.nthFromEnd s.has_fled 0 ≠ s.last_fled_turn_checked ∧
          AttackAgent.nthFromEnd s.has_fled 0 - AttackAgent.nthFromEnd s.has_fled 1 ≤
            AttackAgent.TURNS_FLEEING_TOO_MUCH ∧
          AttackAgent.nthFromEnd s.has_fled 1 - AttackAgent.nthFromEnd s.has_fled 2 ≤
            AttackAgent.TURNS_FLEEING_TOO_MUCH)) ∧
    (∀ (o : Oracle) (fuel r : Nat) (s s' : AttackAgent.State) (a : Action),
      s.first_actions = [] → s.already_randomized = true →
      ¬ 0 < s.turns_has_to_flee →
      (AttackAgent.has_been_fleeing_too_much o s).1 = true →
      get_food_positions_ours o ≠ [] →
      AttackAgent.decide_action_attack o fuel r s = some (s', a) →
      s'.turns_has_to_flee = AttackAgent.TURNS_HAS_TO_FLEE ∧
        s'.fleeing_point ≠ none) := by
  constructor
  · intro o s
    unfold AttackAgent.has_been_fleeing_too_much
    split_ifs with h1 h2 h3 <;> simp_all
  · intro o fuel r s s' a hfa hrand hflee hfired hfood h
    unfold AttackAgent.decide_action_attack at h
    rw [if_neg (by rw [hrand]; simp)] at h
    dsimp only at h
    rw [hfa] at h
    dsimp only at h
    rw [if_neg hflee] at h
    have hpair : AttackAgent.has_been_fleeing_too_much o s =
        (true, (AttackAgent.has_been_fleeing_too_much o s).2) := by
      rw [← hfired]
    rw [hpair] at h
    dsimp only at h
    rw [if_neg hfood] at h
    cases hgf : AttackAgent.get_fleeing_point o fuel r with
    | none => rw [hgf] at h; simp at h
    | some fp =>
      rw [hgf] at h
      dsimp only at h
      split at h
      · split at h
        · obtain ⟨h1, h2⟩ := Prod.mk.injEq .. ▸ Option.some.inj h
          subst h1
          exact ⟨rfl, by simp⟩
        · simp at h
      · rename_i heq
        exact absurd rfl heq

/-- Witness for the amended flee trigger: on the corridor board a
five-entry history with gaps of 2 fires the trigger, and the completed
decision arms the 6-turn window. -/
theorem flee_trigger_amended_witness :
    (AttackAgent.has_been_fleeing_too_much fleeOracle fleeStateFive).1 = true ∧
    (AttackAgent.decide_action_attack fleeOracle 40 0 fleeStateFive).map
      (fun x => x.1.turns_has_to_flee) = some AttackAgent.TURNS_HAS_TO_FLEE := by
  have h1 : (AttackAgent.has_been_fleeing_too_much fleeOracle fleeStateFive).1 = true :=
    (flee_trigger_amended.1 fleeOracle fleeStateFive).mpr (by decide)
  refine ⟨h1, ?_⟩
  cases hrun : AttackAgent.decide_action_attack fleeOracle 40 0 fleeStateFive with
  | none => exact absurd hrun (by decide)
  | some pa =>
    obtain ⟨s', a⟩ := pa
    have h2 := flee_trigger_amended.2 fleeOracle 40 0 fleeStateFive s' a
      (by decide) (by decide) (by decide) h1 (by decide) hrun
    simp [h2.1]



theorem state_ite_turns (c : Prop) [Decidable c] (a b : AttackAgent.State) :
    (if c then a else b).turns_with_capsule_effect =
      if c then a.turns_with_capsule_effect else b.turns_with_capsule_effect :=
  apply_ite _ c a b

theorem state_ite_caps (c : Prop) [Decidable c] (a b : AttackAgent.State) :
    (if c then a else b).capsules_in_last_turn =
      if c then a.capsules_in_last_turn else b.capsules_in_last_turn :=
  apply_ite _ c a b

theorem dstate_ite_turns (c : Prop) [Decidable c] (a b : DefendAgent.State) :
    (if c then a else b).turns_with_capsule_effect =
      if c then a.turns_with_capsule_effect else b.turns_with_capsule_effect :=
  apply_ite _ c a b

theorem dstate_ite_caps (c : Prop) [Decidable c] (a b : DefendAgent.State) :
    (if c then a else b).capsules_in_last_turn =
      if c then a.capsules_in_last_turn else b.capsules_in_last_turn :=
  apply_ite _ c a b

theorem attacker_update_capsule (o : Oracle) (s : AttackAgent.State) :
    (AttackAgent.update_counters o s).turns_with_capsule_effect =
      (if Int.ofNat o.capsEnemy.length < s.capsules_in_last_turn then
        AttackAgent.CAPSULE_EFFECT_DURATION
      else if 0 < s.turns_with_capsule_effect then s.turns_with_capsule_effect - 1
      else s.turns_with_capsule_effect) ∧
    (AttackAgent.update_counters o s).capsules_in_last_turn =
      (if Int.ofNat o.capsEnemy.length < s.capsules_in_last_turn then
        Int.ofNat o.capsEnemy.length
      else s.capsules_in_last_turn) := by
  constructor <;>
    simp only [AttackAgent.update_counters, state_ite_turns, state_ite_caps,
      ite_self, gt_iff_lt]

theorem calculate_patrol_points_capsule (o : Oracle) (fuel r : Nat)
    (s s1 : DefendAgent.State)
    (h : DefendAgent.calculate_patrol_points o fuel r s = some s1) :
    s1.turns_with_capsule_effect = s.turns_with_capsule_effect ∧
    s1.capsules_in_last_turn = s.capsules_in_last_turn := by
  unfold DefendAgent.calculate_patrol_points at h
  split at h
  · split at h
    · simp at h
    · split at h
      · dsimp only at h
        split at h
        · obtain h1 := Option.some.inj h
          subst h1
          exact ⟨rfl, rfl⟩
        · simp at h
      · simp at h
  · obtain h1 := Option.some.inj h
    subst h1
    exact ⟨rfl, rfl⟩

theorem defender_update_capsule (o : Oracle) (fuel r : Nat)
    (s s' : DefendAgent.State)
    (h : DefendAgent.update_counters o fuel r s = some s') :
    s'.turns_with_capsule_effect =
      (if Int.ofNat o.capsOurs.length < s.capsules_in_last_turn then
        DefendAgent.CAPSULE_EFFECT_DURATION
      else if 0 < s.turns_with_capsule_effect then s.turns_with_capsule_effect - 1
      else s.turns_with_capsule_effect) ∧
    s'.capsules_in_last_turn =
      (if Int.ofNat o.capsOurs.length < s.capsules_in_last_turn then
        Int.ofNat o.capsOurs.length
      else s.capsules_in_last_turn) := by
  unfold DefendAgent.update_counters at h
  dsimp only at h
  by_cases hig : s.initial_goal = none
  · rw [if_pos hig] at h
    cases hcalc : DefendAgent.calculate_patrol_points o fuel r s with
    | none => rw [hcalc] at h; simp at h
    | some s1 =>
      rw [hcalc] at h
      dsimp only at h
      obtain h1 := Option.some.inj h
      obtain ⟨hc1, hc2⟩ := calculate_patrol_points_capsule o fuel r s s1 hcalc
      subst h1
      constructor <;>
        simp only [dstate_ite_turns, dstate_ite_caps, ite_self, gt_iff_lt, hc1, hc2]
  · rw [if_neg hig] at h
    dsimp only at h
    obtain h1 := Option.some.inj h
    subst h1
    constructor <;>
      simp only [dstate_ite_turns, dstate_ite_caps, ite_self, gt_iff_lt]



/-- C8: for both policies, a nonnegative power-up counter stays
nonnegative across the per-turn counter update; each update leaves it
equal, decrements it by exactly one, or sets it to the role's fixed
duration; the arming happens exactly on a strictly decreased capsule
observation, which also refreshes the stored capsule count so the same
disappearance cannot arm it twice; and any strict increase of the counter
implies such a decrease was observed. -/
theorem powerup_counter_invariant (o : Oracle) (fuel r : Nat)
    (sa : AttackAgent.State) (sd sd' : DefendAgent.State)
    (hA : 0 ≤ sa.turns_with_capsule_effect)
    (hD : 0 ≤ sd.turns_with_capsule_effect)
    (hupd : DefendAgent.update_counters o fuel r sd = some sd') :
    (0 ≤ (AttackAgent.update_counters o sa).turns_with_capsule_effect ∧
      ((AttackAgent.update_counters o sa).turns_with_capsule_effect =
          sa.turns_with_capsule_effect ∨
        (AttackAgent.update_counters o sa).turns_with_capsule_effect =
          sa.turns_with_capsule_effect - 1 ∨
        ((AttackAgent.update_counters o sa).turns_with_capsule_effect =
            AttackAgent.CAPSULE_EFFECT_DURATION ∧
          Int.ofNat o.capsEnemy.length < sa.capsules_in_last_turn ∧
          (AttackAgent.update_counters o sa).capsules_in_last_turn =
            Int.ofNat o.capsEnemy.length)) ∧
      (sa.turns_with_capsule_effect <
          (AttackAgent.update_counters o sa).turns_with_capsule_effect →
        Int.ofNat o.capsEnemy.length < sa.capsules_in_last_turn)) ∧
    (0 ≤ sd'.turns_with_capsule_effect ∧
      (sd'.turns_with_capsule_effect = sd.turns_with_capsule_effect ∨
        sd'.turns_with_capsule_effect = sd.turns_with_capsule_effect - 1 ∨
        (sd'.turns_with_capsule_effect = DefendAgent.CAPSULE_EFFECT_DURATION ∧
          Int.ofNat o.capsOurs.length < sd.capsules_in_last_turn ∧
          sd'.capsules_in_last_turn = Int.ofNat o.capsOurs.length)) ∧
      (sd.turns_with_capsule_effect < sd'.turns_with_capsule_effect →
        Int.ofNat o.capsOurs.length < sd.capsules_in_last_turn)) := by
  obtain ⟨ha1, ha2⟩ := attacker_update_capsule o sa
  obtain ⟨hd1, hd2⟩ := defender_update_capsule o fuel r sd sd' hupd
  constructor
  · rw [ha1, ha2]
    unfold AttackAgent.CAPSULE_EFFECT_DURATION
    split_ifs <;> refine ⟨by omega, ?_, by omega⟩ <;> omega
  · rw [hd1, hd2]
    unfold DefendAgent.CAPSULE_EFFECT_DURATION
    split_ifs <;> refine ⟨by omega, ?_, by omega⟩ <;> omega

/-- Witness for the power-up counter theorem on concrete states. -/
theorem powerup_counter_invariant_witness :
    0 ≤ (AttackAgent.update_counters fleeOracle fleeStateFive).turns_with_capsule_effect := by
  cases hrun : DefendAgent.update_counters fleeOracle 40 0 (patrolState 2) with
  | none => exact absurd hrun (by decide)
  | some sd' =>
    exact (powerup_counter_invariant fleeOracle 40 0 fleeStateFive (patrolState 2) sd'
      (by decide) (by decide) hrun).1.1



theorem mem_food_scan (w h : Nat) (food : Nat → Nat → Bool) (p : Pos) :
    p ∈ food_scan w h food ↔
      ∃ i j, i < w - 1 ∧ j < h - 1 ∧ food i j = true ∧
        p = (Int.ofNat i, Int.ofNat j) := by
  unfold food_scan
  simp only [List.mem_flatMap, List.mem_filterMap, List.mem_range]
  constructor
  · rintro ⟨j, hj, i, hi, hif⟩
    by_cases hf : food i j = true
    · rw [if_pos hf] at hif
      exact ⟨i, j, hi, hj, hf, (Option.some.inj hif).symm⟩
    · rw [if_neg hf] at hif
      simp at hif
  · rintro ⟨i, j, hi, hj, hf, hp⟩
    exact ⟨j, hj, i, hi, by rw [if_pos hf, hp]⟩

theorem scan_exact_iff (w h : Nat) (food : Nat → Nat → Bool) (caps : List Pos)
    (hcap : ∀ p ∈ caps, p.1 ≠ Int.ofNat (w - 1) ∧ p.2 ≠ Int.ofNat (h - 1)) :
    (∀ p : Pos, p ∈ food_scan w h food ++ caps ↔
        ((∃ i j, i < w ∧ j < h ∧ food i j = true ∧
          p = (Int.ofNat i, Int.ofNat j)) ∨ p ∈ caps)) ↔
      (∀ i j, i < w → j < h → (i = w - 1 ∨ j = h - 1) → food i j = false) := by
  constructor
  · intro hexact i j hi hj hmax
    by_contra hfood
    rw [Bool.not_eq_false] at hfood
    have hp := (hexact (Int.ofNat i, Int.ofNat j)).mpr
      (Or.inl ⟨i, j, hi, hj, hfood, rfl⟩)
    rcases List.mem_append.mp hp with hs | hc
    · obtain ⟨i2, j2, hi2, hj2, _, heq⟩ := (mem_food_scan w h food _).mp hs
      obtain ⟨he1, he2⟩ := Prod.mk.injEq .. ▸ heq
      have hii : i = i2 := Int.ofNat_inj.mp he1
      have hjj : j = j2 := Int.ofNat_inj.mp he2
      rcases hmax with hm | hm
      · omega
      · omega
    · obtain ⟨hc1, hc2⟩ := hcap _ hc
      rcases hmax with hm | hm
      · exact hc1 (by rw [hm])
      · exact hc2 (by rw [hm])
  · intro hnomax p
    constructor
    · intro hp
      rcases List.mem_append.mp hp with hs | hc
      · obtain ⟨i, j, hi, hj, hf, heq⟩ := (mem_food_scan w h food _).mp hs
        exact Or.inl ⟨i, j, by omega, by omega, hf, heq⟩
      · exact Or.inr hc
    · intro hp
      rcases hp with ⟨i, j, hi, hj, hf, heq⟩ | hc
      · refine List.mem_append_left _ ((mem_food_scan w h food _).mpr
          ⟨i, j, ?_, ?_, hf, heq⟩)
        · have hne : i ≠ w - 1 := fun hcon => by
            have hx := hnomax i j hi hj (Or.inl hcon)
            rw [hf] at hx
            simp at hx
          omega
        · have hne : j ≠ h - 1 := fun hcon => by
            have hx := hnomax i j hi hj (Or.inr hcon)
            rw [hf] at hx
            simp at hx
          omega
      · exact List.mem_append_right _ hc

/-- C10: the food-position scans cover row indices `0..height-2` and
column indices `0..width-2` only, so each returns exactly the true food
set (plus the capsules) precisely when no food pellet lies in the maximal
row or maximal column; and under the precondition that the maze border is
walls (and food lies only on open cells), no pellet can lie there, so the
scans are exact. -/
theorem food_positions_exact_iff (o : Oracle)
    (hcapE : ∀ p ∈ o.capsEnemy,
      p.1 ≠ Int.ofNat (o.width - 1) ∧ p.2 ≠ Int.ofNat (o.height - 1))
    (hcapO : ∀ p ∈ o.capsOurs,
      p.1 ≠ Int.ofNat (o.width - 1) ∧ p.2 ≠ Int.ofNat (o.height - 1)) :
    ((∀ p : Pos, p ∈ get_food_positions_enemy o ↔
        ((∃ i j, i < o.width ∧ j < o.height ∧ o.foodEnemy i j = true ∧
          p = (Int.ofNat i, Int.ofNat j)) ∨ p ∈ o.capsEnemy)) ↔
      (∀ i j, i < o.width → j < o.height →
        (i = o.width - 1 ∨ j = o.height - 1) → o.foodEnemy i j = false)) ∧
    ((∀ p : Pos, p ∈ get_food_positions_ours o ↔
        ((∃ i j, i < o.width ∧ j < o.height ∧ o.foodOurs i j = true ∧
          p = (Int.ofNat i, Int.ofNat j)) ∨ p ∈ o.capsOurs)) ↔
      (∀ i j, i < o.width → j < o.height →
        (i = o.width - 1 ∨ j = o.height - 1) → o.foodOurs i j = false)) ∧
    ((∀ i j, (i = 0 ∨ j = 0 ∨ i = o.width - 1 ∨ j = o.height - 1) →
        i < o.width → j < o.height → o.walls (Int.ofNat i, Int.ofNat j) = true) →
      (∀ i j, i < o.width → j < o.height → o.foodEnemy i j = true →
        o.walls (Int.ofNat i, Int.ofNat j) = false) →
      ∀ i j, i < o.width → j < o.height →
        (i = o.width - 1 ∨ j = o.height - 1) → o.foodEnemy i j = false) := by
  refine ⟨scan_exact_iff o.width o.height o.foodEnemy o.capsEnemy hcapE,
    scan_exact_iff o.width o.height o.foodOurs o.capsOurs hcapO, ?_⟩
  intro hborder hopen i j hi hj hmax
  by_contra hfood
  rw [Bool.not_eq_false] at hfood
  have h1 := hborder i j (by tauto) hi hj
  have h2 := hopen i j hi hj hfood
  rw [h1] at h2
  simp at h2

/-- Witness for the food-scan theorem on a concrete grid. -/
theorem food_positions_exact_iff_witness :
    ((3 : Int), (1 : Int)) ∈ get_food_positions_enemy enemyFieldOracle := by
  have h := food_positions_exact_iff enemyFieldOracle (by decide) (by decide)
  have hnomax0 : ∀ i, i < 6 → ∀ j, j < 3 → ((i = 5 ∨ j = 2) →
      enemyFieldOracle.foodEnemy i j = false) := by decide
  have hnomax : ∀ i j, i < 6 → j < 3 → (i = 5 ∨ j = 2) →
      enemyFieldOracle.foodEnemy i j = false := fun i j hi hj => hnomax0 i hi j hj
  exact (h.1.mpr hnomax ((3, 1) : Pos)).mpr
    (Or.inl ⟨3, 1, by decide, by decide, by decide, rfl⟩)



theorem state_ite_fa (c : Prop) [Decidable c] (a b : AttackAgent.State) :
    (if c then a else b).first_actions =
      if c then a.first_actions else b.first_actions :=
  apply_ite _ c a b

theorem state_ite_rand (c : Prop) [Decidable c] (a b : AttackAgent.State) :
    (if c then a else b).already_randomized =
      if c then a.already_randomized else b.already_randomized :=
  apply_ite _ c a b

theorem hbft_state_fixed (o : Oracle) (s : AttackAgent.State) :
    (AttackAgent.has_been_fleeing_too_much o s).2.first_actions = s.first_actions ∧
    (AttackAgent.has_been_fleeing_too_much o s).2.already_randomized =
      s.already_randomized := by
  unfold AttackAgent.has_been_fleeing_too_much
  split_ifs <;> exact ⟨rfl, rfl⟩

theorem attacker_update_first_actions (o : Oracle) (s : AttackAgent.State) :
    (AttackAgent.update_counters o s).first_actions =
      (if s.already_randomized = true ∧ o.myPos = o.myInitial then []
       else if in_our_field o o.myPos then s.first_actions else []) := by
  simp only [AttackAgent.update_counters, state_ite_fa, state_ite_rand, ite_self]

theorem attacker_update_randomized (o : Oracle) (s : AttackAgent.State) :
    (AttackAgent.update_counters o s).already_randomized = s.already_randomized := by
  simp only [AttackAgent.update_counters, state_ite_rand, ite_self]

theorem decide_action_attack_first_actions (o : Oracle) (fuel r : Nat)
    (s s' : AttackAgent.State) (a : Action)
    (hrand : s.already_randomized = true)
    (h : AttackAgent.decide_action_attack o fuel r s = some (s', a)) :
    s'.first_actions = s.first_actions ∨
      s'.first_actions = s.first_actions.tail := by
  unfold AttackAgent.decide_action_attack at h
  rw [if_neg (by rw [hrand]; simp)] at h
  dsimp only at h
  cases hfa : s.first_actions with
  | cons a0 rest =>
    rw [hfa] at h
    dsimp only at h
    cases havoid : avoid_enemy_collision o o.myPos a0 r with
    | none => rw [havoid] at h; simp at h
    | some act =>
      rw [havoid] at h
      dsimp only [Option.map] at h
      obtain ⟨h1, h2⟩ := Prod.mk.injEq .. ▸ Option.some.inj h
      subst h1
      right
      rfl
  | nil =>
    rw [hfa] at h
    dsimp only at h
    split at h
    · -- must keep fleeing: match on the repicked state
      split at h
      · -- repick produced none
        simp at h
      · -- repick produced some s2
        rename_i s2 heq2
        split at h
        · -- no fleeing point recorded
          simp at h
        · -- route to the fleeing point
          split at h
          · obtain ⟨h1, h2⟩ := Prod.mk.injEq .. ▸ Option.some.inj h
            subst h1
            left
            split at heq2
            · split at heq2
              · obtain h3 := Option.some.inj heq2
                rw [← h3]
              · simp at heq2
            · obtain h3 := Option.some.inj heq2
              rw [← h3, hfa]
          · simp at h
    · -- not fleeing: the fleeing-too-much check and the default attack
      split at h
      · -- trigger fired
        split at h
        · obtain ⟨h1, h2⟩ := Prod.mk.injEq .. ▸ Option.some.inj h
          subst h1
          left
          rw [(hbft_state_fixed o s).1, hfa]
        · split at h
          · -- no fleeing point computable
            simp at h
          · split at h
            · obtain ⟨h1, h2⟩ := Prod.mk.injEq .. ▸ Option.some.inj h
              subst h1
              left
              rw [(hbft_state_fixed o s).1, hfa]
            · simp at h
      · -- default attack toward the closest food
        split at h
        · simp at h
        · split at h
          · rename_i a1 rest1 heqacts
            cases havoid : avoid_enemy_collision o o.myPos a1 r with
            | none => rw [havoid] at h; simp at h
            | some act =>
              rw [havoid] at h
              dsimp only [Option.map] at h
              obtain ⟨h1, h2⟩ := Prod.mk.injEq .. ▸ Option.some.inj h
              subst h1
              left
              rw [(hbft_state_fixed o s).1, hfa]
          · simp at h



theorem decide_action_in_enemy_field_first_actions (o : Oracle) (fuel r : Nat)
    (s s' : AttackAgent.State) (a : Action)
    (hrand : s.already_randomized = true)
    (h : AttackAgent.decide_action_in_enemy_field o fuel r s = some (s', a)) :
    s'.first_actions = s.first_actions ∨
      s'.first_actions = s.first_actions.tail := by
  unfold AttackAgent.decide_action_in_enemy_field at h
  dsimp only at h
  split at h
  · -- a threatening enemy is visible: flee toward home
    split at h
    · simp at h
    · split at h
      · rename_i a1 rest1 heqstar
        cases havoid : avoid_enemy_collision o o.myPos a1 r with
        | none => rw [havoid] at h; simp at h
        | some act =>
          rw [havoid] at h
          dsimp only [Option.map] at h
          obtain ⟨h1, h2⟩ := Prod.mk.injEq .. ▸ Option.some.inj h
          subst h1
          left
          rfl
      · simp at h
  · exact decide_action_attack_first_actions o fuel r s s' a hrand h

/-- C4 amended: once the opening sequence has been created
(`already_randomized` is set), each completed turn leaves the queued
opening moves unchanged, removes exactly the front move, or empties the
queue — and emptying other than by draining happens only when the observed
position is outside the agent's own territory or equals its own initial
spawn position; in particular any completed turn observed outside home
territory leaves the queue empty.  The queue is never re-extended. -/
theorem opening_queue_transitions (o : Oracle) (fuel r : Nat)
    (s s' : AttackAgent.State) (a : Action)
    (hrand : s.already_randomized = true)
    (h : AttackAgent.choose_action o fuel r s = some (s', a)) :
    (s'.first_actions = s.first_actions ∨
      s'.first_actions = s.first_actions.tail ∨
      (s'.first_actions = [] ∧
        (in_our_field o o.myPos = false ∨ o.myPos = o.myInitial))) ∧
    (in_our_field o o.myPos = false → s'.first_actions = []) := by
  unfold AttackAgent.choose_action at h
  dsimp only at h
  have hufa := attacker_update_first_actions o s
  have hurand := attacker_update_randomized o s
  split at h
  · -- return-to-base branch: the state is the counter update itself
    cases hret : AttackAgent.decide_action_return o fuel r with
    | none => rw [hret] at h; simp at h
    | some a0 =>
      rw [hret] at h
      dsimp only [Option.map] at h
      obtain ⟨h1, h2⟩ := Prod.mk.injEq .. ▸ Option.some.inj h
      subst h1
      constructor
      · rw [hufa]
        by_cases hc1 : s.already_randomized = true ∧ o.myPos = o.myInitial
        · rw [if_pos hc1]
          exact Or.inr (Or.inr ⟨rfl, Or.inr hc1.2⟩)
        · rw [if_neg hc1]
          by_cases hc2 : in_our_field o o.myPos = true
          · rw [if_pos hc2]; exact Or.inl rfl
          · rw [if_neg hc2]
            exact Or.inr (Or.inr ⟨rfl, Or.inl (by simpa using hc2)⟩)
      · intro hno
        rw [hufa]
        by_cases hc1 : s.already_randomized = true ∧ o.myPos = o.myInitial
        · rw [if_pos hc1]
        · rw [if_neg hc1, if_neg (by intro hcon; rw [hno] at hcon; cases hcon)]
  · split at h
    · -- inside home territory: the attack branch
      rename_i hio
      have hx := decide_action_attack_first_actions o fuel r
        (AttackAgent.update_counters o s) s' a (by rw [hurand, hrand]) h
      constructor
      · rw [hufa] at hx
        by_cases hc1 : s.already_randomized = true ∧ o.myPos = o.myInitial
        · rw [if_pos hc1] at hx
          rcases hx with h3 | h3 <;>
            exact Or.inr (Or.inr ⟨by simpa using h3, Or.inr hc1.2⟩)
        · rw [if_neg hc1, if_pos hio] at hx
          rcases hx with h3 | h3
          · exact Or.inl h3
          · exact Or.inr (Or.inl h3)
      · intro hno
        rw [hno] at hio
        cases hio
    · -- outside home territory: the update already cleared the queue
      rename_i hio
      have hiof : in_our_field o o.myPos = false := by simpa using hio
      have hx := decide_action_in_enemy_field_first_actions o fuel r
        (AttackAgent.update_counters o s) s' a (by rw [hurand, hrand]) h
      have hufa0 : (AttackAgent.update_counters o s).first_actions = [] := by
        rw [hufa]
        by_cases hc1 : s.already_randomized = true ∧ o.myPos = o.myInitial
        · rw [if_pos hc1]
        · rw [if_neg hc1, if_neg (by intro hcon; rw [hiof] at hcon; cases hcon)]
      rw [hufa0] at hx
      have hsfa : s'.first_actions = [] := by
        rcases hx with h3 | h3 <;> simpa using h3
      exact ⟨Or.inr (Or.inr ⟨hsfa, Or.inl hiof⟩), fun _ => hsfa⟩

/-- C4 counterexample: a completed turn on the enemy half with a two-move
opening queue left and a position different from the spawn empties the
queue — so the queue is cleared under a condition the claim does not
allow (the claim permits clearing only at the spawn position), and the
transition is neither a front-drain nor an unchanged queue. -/
theorem opening_queue_counterexample :
    (AttackAgent.choose_action enemyFieldOracle 40 0 enemyFieldState).map
        (fun x => x.1.first_actions) = some [] ∧
    enemyFieldState.first_actions = [Action.East, Action.East] ∧
    enemyFieldOracle.myPos ≠ enemyFieldOracle.myInitial ∧
    enemyFieldState.already_randomized = true ∧
    ([] : List Action) ≠ enemyFieldState.first_actions ∧
    ([] : List Action) ≠ enemyFieldState.first_actions.tail := by
  decide

/-- Witness for the opening-queue transition theorem: a completed turn
inside home territory leaves the queue unchanged, drains its front, or
empties it. -/
theorem opening_queue_transitions_witness :
    (AttackAgent.choose_action fleeOracle 40 0 enemyFieldState).map
      (fun x => decide (x.1.first_actions = enemyFieldState.first_actions ∨
        x.1.first_actions = enemyFieldState.first_actions.tail ∨
        x.1.first_actions = [])) = some true := by
  cases hrun : AttackAgent.choose_action fleeOracle 40 0 enemyFieldState with
  | none => exact absurd hrun (by decide)
  | some pa =>
    obtain ⟨s', a⟩ := pa
    have hx := (opening_queue_transitions fleeOracle 40 0 enemyFieldState s' a
      (by decide) hrun).1
    simp only [Option.map]
    rcases hx with h3 | h3 | h3
    · simp [h3]
    · simp [h3]
    · simp [h3.1]

end PacmanAgent
